import Mathlib

/-!
A shallow embedding of the Hanabi game core of this repository.

The authoritative model follows `src/gamestate.py` (the refactored
`GameState` with `DiscardPile` and `put_card_on_discard_pile`); the AI
action-selection procedure `select_action_ai` is taken from
`src/hanabi.py`, whose `GameState` agrees with `gamestate.py` on every
helper that `select_action_ai` uses (`get_usable_cards`,
`get_card_counts`, the four `get_card_ids_player_can_*` functions and
`apply_hint`).

Conventions of the embedding:
* A Python `list` popped from its end (the deck) is a `List Card` drawn
  with `getLast?` / `dropLast`, exactly mirroring `list.pop()`.
* `None` in a hand slot is `Option.none`.
* A hint grid (a Python dict keyed by the 25 `(colour, value)` pairs) is
  a function `Colour × Nat → Bool`; the source only ever queries the 25
  product keys, which the list `all_identities` enumerates in the
  source's `itertools.product` order.
* `GameState.apply_action` returns `Option (GameState × Option GameOver)`:
  `none` models a Python exception other than `GameOver` (an
  `IndexError`/`AttributeError` from an action the generator would never
  produce), and `some (s, some r)` models `raise GameOver(r)` escaping
  with the mutations already performed to `self` persisting in `s`.
* `DiscardPile.counts` (a `Counter` kept in sync with `DiscardPile.cards`
  by `add_card`) is modelled by the derived count `idCount` over the
  card list.
-/

namespace Hanabi

/-- The five Hanabi colours (the `Colour` literal type of the source). -/
inductive Colour where
  | red
  | yellow
  | green
  | blue
  | white
deriving DecidableEq, Fintype

/-- The list `colour_values` of the source, in source order. -/
def colour_values : List Colour := [.red, .yellow, .green, .blue, .white]

/-- The list `card_values` of the source: the ranks 1..5. -/
def card_values : List Nat := [1, 2, 3, 4, 5]

/-- `CARD_COUNTS[colour][value]`: 3 copies of rank 1, 2 copies of ranks
2-4, 1 copy of rank 5 (per colour).  Ranks outside 1..5 are `KeyError`s
in Python and are never queried by the source; here they count 0. -/
def CARD_COUNTS (_colour : Colour) (value : Nat) : Nat :=
  if value = 1 then 3
  else if value = 5 then 1
  else if 2 ≤ value ∧ value ≤ 4 then 2
  else 0

/-- The `Card` dataclass. -/
structure Card where
  colour : Colour
  value : Nat
deriving DecidableEq

/-- A hint grid: the per-slot dict mapping each of the 25
`(colour, value)` identities to "still possible". -/
abbrev Grid := Colour × Nat → Bool

/-- The 25 identity keys, in the `itertools.product(colour_values,
card_values)` order the source iterates them in. -/
def all_identities : List (Colour × Nat) :=
  colour_values.flatMap (fun c => card_values.map (fun v => (c, v)))

/-- `initial_hints()`: every identity still possible. -/
def initial_hints : Grid := fun _ => true

/-- The `HintType` literal type: `'colour'` or `'value'`. -/
inductive HintType where
  | colour
  | value
deriving DecidableEq

/-- A hint value: in Python a raw colour string or a rank int (the two
are disjoint, so a sum type is faithful). -/
inductive HintValue where
  | colour (c : Colour)
  | value (v : Nat)
deriving DecidableEq

/-- `extract(card) == hint_value` in `apply_hint`: the hinted dimension
of the identity compared with the hint value.  A Python comparison of a
colour string with an int is `False`, hence the catch-all. -/
def hint_matches (hint_type : HintType) (hint_value : HintValue) (card : Colour × Nat) : Bool :=
  match hint_type, hint_value with
  | .colour, .colour c => decide (card.1 = c)
  | .value, .value v => decide (card.2 = v)
  | _, _ => false

/-- `apply_hint(do_hint, card_hints, hint_type, hint_value)`: an entry is
forced to `False` when its membership in the hinted group disagrees with
whether the slot was included in the hint; otherwise it keeps its old
value. -/
def apply_hint (do_hint : Bool) (card_hints : Grid) (hint_type : HintType)
    (hint_value : HintValue) : Grid :=
  fun card =>
    if (!(hint_matches hint_type hint_value card) && do_hint)
        || (hint_matches hint_type hint_value card && !do_hint) then
      false
    else
      card_hints card

/-- The Boolean test "this card is the identity `(c, v)`". -/
def card_is (c : Colour) (v : Nat) (card : Card) : Bool :=
  decide (card.colour = c ∧ card.value = v)

/-- Count of cards of identity `(c, v)` in a card list (the derived view
of `DiscardPile.counts` and of the census contributions). -/
def idCount (l : List Card) (c : Colour) (v : Nat) : Nat :=
  l.countP (card_is c v)

/-- The Boolean test "this hand slot holds a card of identity `(c, v)`". -/
def slot_is (c : Colour) (v : Nat) : Option Card → Bool
  | some card => card_is c v card
  | none => false

/-- Count of cards of identity `(c, v)` in a hand. -/
def idCountOpt (h : List (Option Card)) (c : Colour) (v : Nat) : Nat :=
  h.countP (slot_is c v)

/-- `possible_cards_from_hints(hints, card_counts)`: the identities still
marked possible whose copies are not all publicly accounted for.  The
Python `CARD_COUNTS[c][v] - card_counts[c][v] > 0` is over unbounded
ints, i.e. `card_counts < CARD_COUNTS`. -/
def possible_cards_from_hints (hints : Grid) (card_counts : Colour → Nat → Nat) :
    List (Colour × Nat) :=
  all_identities.filter (fun cv =>
    hints cv && decide (card_counts cv.1 cv.2 < CARD_COUNTS cv.1 cv.2))

/-- The `Action` dataclass, with `args` split per action name:
`discard [i]`, `play [i]`, `hint [other, ids, type, value]`. -/
inductive Action where
  | discard (card_id : Nat)
  | play (card_id : Nat)
  | hint (other_player_id : Nat) (card_ids : List Nat)
      (hint_type : HintType) (hint_value : HintValue)
deriving DecidableEq

/-- The `GameOver` exception, with its two reasons raised by
`apply_action` (`'the last copy of this card {card} has been discarded'`
and `'ran out of mistakes'`). -/
inductive GameOver where
  | lastCopyDiscarded (card : Card)
  | ranOutOfMistakes
deriving DecidableEq

/-- The `GameState` of `gamestate.py`.  `discard_pile` is
`DiscardPile.cards`; the counters are `Int` because Python ints are
unbounded in both directions. -/
structure GameState where
  num_players : Nat
  deck : List Card
  discard_pile : List Card
  table : Colour → Nat
  hints_remaining : Int
  mistakes_remaining : Int
  hints : List (List Grid)
  hands : List (List (Option Card))

/-- Deal `k` cards into a fresh hand by popping from the end of the
deck (the inner loop of `init_hands`). -/
def dealHand : List Card → Nat → List (Option Card) × List Card
  | deck, 0 => ([], deck)
  | deck, k + 1 =>
    let c := deck.getLast?
    let deck1 := deck.dropLast
    let rest := dealHand deck1 k
    (c :: rest.1, rest.2)

/-- `init_hands`: deal a 5-card hand to each player in turn. -/
def init_hands : Nat → List Card → List (List (Option Card)) × List Card
  | 0, deck => ([], deck)
  | n + 1, deck =>
    let hd := dealHand deck 5
    let rest := init_hands n hd.2
    (hd.1 :: rest.1, rest.2)

/-- `GameState.__init__(num_players, deck)`: full hint grids, empty
table and discard pile, 8 hint tokens, 3 mistake tokens, hands dealt by
popping the deck. -/
def GameState.initial (num_players : Nat) (deck : List Card) : GameState :=
  let dealt := init_hands num_players deck
  { num_players := num_players
    deck := dealt.2
    discard_pile := []
    table := fun _ => 0
    hints_remaining := 8
    mistakes_remaining := 3
    hints := List.replicate num_players (List.replicate 5 initial_hints)
    hands := dealt.1 }

/-- The hint grid of player `pid`, slot `cid` (out-of-range indices give
the all-true grid; the source never indexes out of range). -/
def GameState.grid_at (s : GameState) (pid cid : Nat) : Grid :=
  (s.hints.getD pid []).getD cid initial_hints

/-- The hand slot of player `pid` at index `cid`. -/
def GameState.slot_at (s : GameState) (pid cid : Nat) : Option Card :=
  (s.hands.getD pid []).getD cid none

/-- `get_usable_cards` on a single hand: the indices of non-empty
slots, in order. -/
def usable_idxs (hand : List (Option Card)) : List Nat :=
  (List.range hand.length).filter (fun i => (hand.getD i none).isSome)

/-- `GameState.get_usable_cards(player_id)`. -/
def GameState.get_usable_cards (s : GameState) (player_id : Nat) : List Nat :=
  usable_idxs (s.hands.getD player_id [])

/-- Indices of the slots of a hand holding a card satisfying `p`
(the `card_ids_by_colour` / `card_ids_by_value` entries of
`get_available_actions`). -/
def hand_ids_matching (hand : List (Option Card)) (p : Card → Bool) : List Nat :=
  (List.range hand.length).filter (fun i =>
    match hand.getD i none with
    | some card => p card
    | none => false)

/-- First-occurrence deduplication: the key order of a Python
`defaultdict` built by insertion. -/
def first_occurrences {α : Type} [DecidableEq α] (l : List α) : List α :=
  l.foldl (fun acc a => if a ∈ acc then acc else acc ++ [a]) []

/-- `GameState.get_available_actions(player_id)`: one discard and one
play per usable slot, then (when hint tokens remain) for every hand in
the game (the source iterates `enumerate(self.hands)`, the acting
player's own hand included) a maximal truthful hint per distinct colour
and per distinct value present. -/
def GameState.get_available_actions (s : GameState) (player_id : Nat) : List Action :=
  let hand := s.hands.getD player_id []
  (usable_idxs hand).map Action.discard
    ++ (usable_idxs hand).map Action.play
    ++ (if 0 < s.hints_remaining then
          (List.range s.hands.length).flatMap (fun other_player_id =>
            let other_hand := s.hands.getD other_player_id []
            (first_occurrences ((other_hand.filterMap id).map Card.colour)).map (fun c =>
              Action.hint other_player_id
                (hand_ids_matching other_hand (fun card => decide (card.colour = c)))
                .colour (.colour c))
              ++ (first_occurrences ((other_hand.filterMap id).map Card.value)).map (fun v =>
                Action.hint other_player_id
                  (hand_ids_matching other_hand (fun card => decide (card.value = v)))
                  .value (.value v)))
        else [])

/-- `get_required_cards()`: `{(c, table[c]+1) : table[c] < 5}` (a set in
Python, only ever queried for membership). -/
def GameState.get_required_cards (s : GameState) : List (Colour × Nat) :=
  (colour_values.filter (fun c => decide (s.table c < 5))).map (fun c => (c, s.table c + 1))

/-- `get_card_counts(exclude_hands)`: discard-pile occurrences, plus one
copy per colour for each rank up to `table[colour]`, plus the cards of
every non-excluded hand. -/
def GameState.get_card_counts (s : GameState) (exclude_hands : List Nat) :
    Colour → Nat → Nat :=
  fun colour v =>
    idCount s.discard_pile colour v
      + (if 1 ≤ v ∧ v ≤ s.table colour then 1 else 0)
      + ((List.range s.num_players).map (fun player_id =>
          if player_id ∈ exclude_hands then 0
          else idCountOpt (s.hands.getD player_id []) colour v)).sum

/-- `get_card_ids_player_can_play_from_hints`: a slot is certainly
playable when every still-possible identity is required. -/
def GameState.get_card_ids_player_can_play_from_hints (s : GameState)
    (usable_cards : List Nat) (player_hints : List Grid)
    (player_card_counts : Colour → Nat → Nat) : List Nat :=
  usable_cards.filter (fun card_id =>
    (possible_cards_from_hints (player_hints.getD card_id initial_hints)
        player_card_counts).all
      (fun cv => decide (cv ∈ s.get_required_cards)))

/-- `get_card_ids_player_can_discard_from_hints`: a slot is certainly
discardable when no still-possible identity is an unplayed last copy. -/
def GameState.get_card_ids_player_can_discard_from_hints (s : GameState)
    (usable_cards : List Nat) (player_hints : List Grid)
    (player_card_counts : Colour → Nat → Nat) : List Nat :=
  usable_cards.filter (fun card_id =>
    (possible_cards_from_hints (player_hints.getD card_id initial_hints)
        player_card_counts).all
      (fun cv =>
        decide (cv.2 ≤ s.table cv.1)
          || decide (CARD_COUNTS cv.1 cv.2 - idCount s.discard_pile cv.1 cv.2 ≠ 1)))

/-- `get_card_ids_player_can_play(player_id)`: the ground-truth variant
used on other players' visible hands. -/
def GameState.get_card_ids_player_can_play (s : GameState) (player_id : Nat) : List Nat :=
  (s.get_usable_cards player_id).filter (fun card_id =>
    match s.slot_at player_id card_id with
    | some card => decide ((card.colour, card.value) ∈ s.get_required_cards)
    | none => false)

/-- `get_card_ids_player_can_discard(player_id)`: the ground-truth
variant (a card is discardable when it is not an unplayed identity with
a single undiscarded copy; note it also excludes already-played cards
only through `num > 1`). -/
def GameState.get_card_ids_player_can_discard (s : GameState) (player_id : Nat) : List Nat :=
  (s.get_usable_cards player_id).filter (fun card_id =>
    match s.slot_at player_id card_id with
    | some card =>
        !(decide (card.value ≤ s.table card.colour))
          && decide (1 < CARD_COUNTS card.colour card.value
              - idCount s.discard_pile card.colour card.value)
    | none => false)

/-- `is_card_on_table(card)`. -/
def GameState.is_card_on_table (s : GameState) (card : Card) : Prop :=
  card.value ≤ s.table card.colour

instance (s : GameState) (card : Card) : Decidable (s.is_card_on_table card) :=
  inferInstanceAs (Decidable (card.value ≤ s.table card.colour))

/-- `are_there_cards_remaining_of_this_type(card)`. -/
def GameState.are_there_cards_remaining_of_this_type (s : GameState) (card : Card) : Prop :=
  idCount s.discard_pile card.colour card.value < CARD_COUNTS card.colour card.value

instance (s : GameState) (card : Card) :
    Decidable (s.are_there_cards_remaining_of_this_type card) :=
  inferInstanceAs (Decidable (_ < _))

/-- `put_card_on_discard_pile(card)`: append to the pile, then raise
`GameOver` if the card is an unplayed identity with no copies left. -/
def GameState.put_card_on_discard_pile (s : GameState) (card : Card) :
    GameState × Option GameOver :=
  let s1 := { s with discard_pile := s.discard_pile ++ [card] }
  if ¬s1.is_card_on_table card ∧ ¬s1.are_there_cards_remaining_of_this_type card then
    (s1, some (.lastCopyDiscarded card))
  else
    (s1, none)

/-- Replace one hand slot. -/
def set_hand_slot (hands : List (List (Option Card))) (pid i : Nat) (x : Option Card) :
    List (List (Option Card)) :=
  hands.set pid ((hands.getD pid []).set i x)

/-- Replace one hint grid. -/
def set_hint_slot (hints : List (List Grid)) (pid i : Nat) (g : Grid) :
    List (List Grid) :=
  hints.set pid ((hints.getD pid []).set i g)

/-- The two lines shared by discard and play: take the card out of the
hand (`hands[player_id][card_id] = None`) and invalidate the hint
(`hints[player_id][card_id] = initial_hints()`). -/
def remove_card (s : GameState) (pid cid : Nat) : GameState :=
  { s with
    hands := set_hand_slot s.hands pid cid none
    hints := set_hint_slot s.hints pid cid initial_hints }

/-- The trailing lines shared by discard and play: `if len(deck) > 0:
hands[player_id][card_id] = deck.pop()`. -/
def draw_into (s : GameState) (pid cid : Nat) : GameState :=
  if 0 < s.deck.length then
    { s with
      deck := s.deck.dropLast
      hands := set_hand_slot s.hands pid cid s.deck.getLast? }
  else s

/-- `GameState.apply_action(player_id, action)`, mutation order exactly
as in the source.  `none` is a non-`GameOver` Python exception (empty
slot / out-of-range index); `some (s, some r)` is a `GameOver` escaping
with the partial mutations kept. -/
def GameState.apply_action (s : GameState) (player_id : Nat) (action : Action) :
    Option (GameState × Option GameOver) :=
  match action with
  | .discard card_id =>
    match s.slot_at player_id card_id with
    | none => none
    | some card =>
      let s1 := remove_card s player_id card_id
      let pc := s1.put_card_on_discard_pile card
      if pc.2.isSome then
        some pc
      else
        let s3 := { pc.1 with hints_remaining := pc.1.hints_remaining + 1 }
        some (draw_into s3 player_id card_id, none)
  | .play card_id =>
    match s.slot_at player_id card_id with
    | none => none
    | some card =>
      let s1 := remove_card s player_id card_id
      if s1.table card.colour + 1 = card.value then
        let s2 := { s1 with
          table := Function.update s1.table card.colour (s1.table card.colour + 1) }
        some (draw_into s2 player_id card_id, none)
      else
        let s2 := { s1 with mistakes_remaining := s1.mistakes_remaining - 1 }
        let pc := s2.put_card_on_discard_pile card
        if pc.2.isSome then
          some pc
        else if pc.1.mistakes_remaining = 0 then
          some (pc.1, some .ranOutOfMistakes)
        else
          some (draw_into pc.1 player_id card_id, none)
  | .hint other_player_id card_ids_to_hint hint_type hint_value =>
    let s1 := { s with hints_remaining := s.hints_remaining - 1 }
    if other_player_id < s1.hints.length ∧ 5 ≤ (s1.hints.getD other_player_id []).length then
      some ({ s1 with
        hints := s1.hints.set other_player_id
          ((List.range 5).map (fun card_id =>
            apply_hint (decide (card_id ∈ card_ids_to_hint))
              ((s1.hints.getD other_player_id []).getD card_id initial_hints)
              hint_type hint_value)) }, none)
    else
      none

/-! ### The heuristic AI of `hanabi.py` (`select_action_ai`) -/

/-- The outcome of `select_action_ai`: a concrete action, the
`random.choice` fallback (whose pick is not modelled), the implicit
`return None` falling off the end, or an `IndexError` from `[...][0]` on
an empty match list. -/
inductive AIChoice where
  | chosen (a : Action)
  | randomChoice
  | noChoice
  | fail
deriving DecidableEq

/-- `defaultdict(set)[k].add(i)`, keeping the dict's key insertion order
and ignoring a duplicate id. -/
def needed_add (m : List (HintValue × List Nat)) (k : HintValue) (i : Nat) :
    List (HintValue × List Nat) :=
  if m.any (fun p => decide (p.1 = k)) then
    m.map (fun p => if p.1 = k then (p.1, if i ∈ p.2 then p.2 else p.2 ++ [i]) else p)
  else
    m ++ [(k, [i])]

/-- The `play_hints_needed` / `discard_hints_needed` accumulation of
`select_action_ai`: for every candidate card and every      grid entry that
is still possible on a wrong colour (resp. wrong value), record that a
hint of the card's own colour (resp. value) is needed for that card.
The candidate ids are iterated in the ascending order the generators
yield them in (CPython iterates a set of small ints in that same
order). -/
def cover_needed (s : GameState) (other : Nat) (ids : List Nat) :
    List (HintValue × List Nat) :=
  ids.foldl (fun m card_id =>
    match s.slot_at other card_id with
    | none => m
    | some card =>
      colour_values.foldl (fun m1 colour =>
        card_values.foldl (fun m2 value =>
          let m3 :=
            if colour ≠ card.colour ∧ s.grid_at other card_id (colour, value) = true then
              needed_add m2 (.colour card.colour) card_id
            else m2
          if value ≠ card.value ∧ s.grid_at other card_id (colour, value) = true then
            needed_add m3 (.value card.value) card_id
          else m3) m1) m) []

/-- All card ids recorded in a needed-hints dict
(`cards_that_need_hints` is the union over both dicts). -/
def needed_ids (m : List (HintValue × List Nat)) : List Nat :=
  m.flatMap Prod.snd

/-- `'colour' if hint_value in colour_values else 'value'`. -/
def hint_type_of : HintValue → HintType
  | .colour _ => .colour
  | .value _ => .value

/-- The simulated grids `updated_hints` of `select_action_ai`. -/
def updated_hints_for (s : GameState) (other : Nat) (hv : HintValue) (ids : List Nat) :
    List Grid :=
  (List.range 5).map (fun card_id =>
    apply_hint (decide (card_id ∈ ids)) (s.grid_at other card_id) (hint_type_of hv) hv)

/-- `good_discard_hints`: the needed hint values whose simulated
application makes some slot certainly discardable for the recipient,
evaluated with the census excluding both players, in needed-order. -/
def good_discard_hints (s : GameState) (player_id other : Nat)
    (needD : List (HintValue × List Nat)) : List (HintValue × List Nat) :=
  needD.filterMap (fun p =>
    let res := s.get_card_ids_player_can_discard_from_hints (s.get_usable_cards other)
      (updated_hints_for s other p.1 p.2) (s.get_card_counts [player_id, other])
    if res ≠ [] then some (p.1, res) else none)

/-- `good_play_hints`, symmetrically. -/
def good_play_hints (s : GameState) (player_id other : Nat)
    (needP : List (HintValue × List Nat)) : List (HintValue × List Nat) :=
  needP.filterMap (fun p =>
    let res := s.get_card_ids_player_can_play_from_hints (s.get_usable_cards other)
      (updated_hints_for s other p.1 p.2) (s.get_card_counts [player_id, other])
    if res ≠ [] then some (p.1, res) else none)

/-- One comparison step of Python's `max` (keeps the earlier entry on
ties). -/
def argmax_step (acc : Option (HintValue × List Nat)) (p : HintValue × List Nat) :
    Option (HintValue × List Nat) :=
  match acc with
  | none => some p
  | some q => if q.2.length < p.2.length then some p else some q

/-- `max(keys, key=lambda k: len(d[k]))`: the first key of maximal
coverage in insertion order. -/
def argmax_key (l : List (HintValue × List Nat)) : Option HintValue :=
  (l.foldl argmax_step none).map Prod.fst

/-- `best_hint`: the first good hint if any, else the argmax of the
needed dict. -/
def best_key (good needD : List (HintValue × List Nat)) : Option HintValue :=
  if good ≠ [] then good.head?.map Prod.fst else argmax_key needD

/-- `[a for a in actions if a.name == 'hint' and a.args[0] ==
other_player_id and a.args[3] == best_hint][0]`. -/
def find_hint_action (actions : List Action) (other : Nat) (best : HintValue) : AIChoice :=
  match actions.find? (fun a =>
    match a with
    | .hint o _ _ hv => decide (o = other ∧ hv = best)
    | _ => false) with
  | some a => .chosen a
  | none => .fail

/-- The body of the per-player loop of `select_action_ai`: `none` means
the loop moves on to the next player. -/
def try_hint_for_player (s : GameState) (player_id : Nat) (actions : List Action)
    (other : Nat) : Option AIChoice :=
  let can_play := s.get_card_ids_player_can_play other
  let can_discard := s.get_card_ids_player_can_discard other
  let needP := cover_needed s other can_play
  let needD := cover_needed s other can_discard
  if ((can_play ++ can_discard).filter (fun i =>
        decide (¬(i ∈ needed_ids needP ∨ i ∈ needed_ids needD)))) = [] then
    if needD ≠ [] then
      match best_key (good_discard_hints s player_id other needD) needD with
      | some best => some (find_hint_action actions other best)
      | none => some .fail
    else if needP ≠ [] then
      match best_key (good_play_hints s player_id other needP) needP with
      | some best => some (find_hint_action actions other best)
      | none => some .fail
    else
      none
  else
    none

/-- The `for i in range(1, num_players)` loop of `select_action_ai`. -/
def ai_hint_loop (s : GameState) (player_id : Nat) (actions : List Action) :
    List Nat → AIChoice
  | [] => .noChoice
  | i :: rest =>
    match try_hint_for_player s player_id actions ((i + player_id) % s.num_players) with
    | some c => c
    | none => ai_hint_loop s player_id actions rest

/-- `select_action_ai(last_move, player_id, actions)` from `hanabi.py`
(the `last_move` argument is unused by the source as well). -/
def GameState.select_action_ai (s : GameState) (_last_move : Option Action)
    (player_id : Nat) (actions : List Action) : AIChoice :=
  let usable := s.get_usable_cards player_id
  let player_hints := s.hints.getD player_id []
  let pcc := s.get_card_counts [player_id]
  let cards_to_play := s.get_card_ids_player_can_play_from_hints usable player_hints pcc
  if cards_to_play ≠ [] then
    match actions.find? (fun a =>
      match a with
      | .play i => decide (i ∈ cards_to_play)
      | _ => false) with
    | some a => .chosen a
    | none => .fail
  else
    let cards_to_discard :=
      s.get_card_ids_player_can_discard_from_hints usable player_hints pcc
    if cards_to_discard ≠ [] then
      match actions.find? (fun a =>
        match a with
        | .discard i => decide (i ∈ cards_to_discard)
        | _ => false) with
      | some a => .chosen a
      | none => .fail
    else if s.hints_remaining = 0 then
      .randomChoice
    else
      ai_hint_loop s player_id actions (List.range' 1 (s.num_players - 1))

/-! ### Reachability and the game invariant -/

/-- The deck contract of the spec: 50 cards in the fixed composition
`CARD_COUNTS` (this is exactly what `create_deck()` produces, in some
order). -/
def valid_deck (deck : List Card) : Prop :=
  deck.length = 50 ∧ (∀ card ∈ deck, card.value ∈ card_values) ∧
    ∀ c ∈ colour_values, ∀ v ∈ card_values, idCount deck c v = CARD_COUNTS c v

instance (deck : List Card) : Decidable (valid_deck deck) := by
  unfold valid_deck
  infer_instance

/-- States reachable from a freshly dealt game by applying actions drawn
from `get_available_actions` (the state a `GameOver` escapes with is
also reachable: its mutations persist). -/
inductive Reachable : GameState → Prop
  | init (num_players : Nat) (deck : List Card) (hdeck : valid_deck deck)
      (hn : 5 * num_players ≤ 50) :
      Reachable (GameState.initial num_players deck)
  | step {s s2 : GameState} {r : Option GameOver} (player_id : Nat) (action : Action)
      (hs : Reachable s) (hp : player_id < s.num_players)
      (ha : action ∈ s.get_available_actions player_id)
      (happ : s.apply_action player_id action = some (s2, r)) :
      Reachable s2

/-- The conservation quantity of the spec: deck size + non-empty hand
slots + discard pile size + sum of table values. -/
def conservation_sum (s : GameState) : Nat :=
  s.deck.length + (s.hands.map (fun h => h.countP Option.isSome)).sum
    + s.discard_pile.length + (colour_values.map s.table).sum

/-- The table's contribution to the census of identity `(c, v)`: one
copy for each rank `1..table[c]`. -/
def table_contrib (t : Colour → Nat) (c : Colour) (v : Nat) : Nat :=
  if 1 ≤ v ∧ v ≤ t c then 1 else 0

/-- The inductive invariant of reachable states: well-formed shapes,
a non-negative hint counter, global conservation, a per-identity card
balance, rank legality, and truthful hint grids. -/
structure Inv (s : GameState) : Prop where
  hands_len : s.hands.length = s.num_players
  hints_len : s.hints.length = s.num_players
  hand5 : ∀ h ∈ s.hands, h.length = 5
  row5 : ∀ row ∈ s.hints, row.length = 5
  hints_nonneg : 0 ≤ s.hints_remaining
  conserve : conservation_sum s = 50
  id_balance : ∀ c : Colour, ∀ v ∈ card_values,
    idCount s.deck c v + (s.hands.map (fun h => idCountOpt h c v)).sum
      + idCount s.discard_pile c v + table_contrib s.table c v = CARD_COUNTS c v
  deck_legal : ∀ card ∈ s.deck, card.value ∈ card_values
  hands_legal : ∀ pid i card, s.slot_at pid i = some card → card.value ∈ card_values
  truth : ∀ pid i card, s.slot_at pid i = some card →
    s.grid_at pid i (card.colour, card.value) = true

/-! ### List helper lemmas -/

lemma getD_eq_default {α : Type} (l : List α) (i : Nat) (d : α) (h : l.length ≤ i) :
    l.getD i d = d := by
  induction l generalizing i with
  | nil => simp
  | cons x xs ih =>
    cases i with
    | zero => simp at h
    | succ n => simpa using ih n (by simpa using h)

lemma getD_set_self {α : Type} (l : List α) (i : Nat) (a d : α) (h : i < l.length) :
    (l.set i a).getD i d = a := by
  induction l generalizing i with
  | nil => simp at h
  | cons x xs ih =>
    cases i with
    | zero => simp
    | succ n => simpa using ih n (by simpa using h)

lemma getD_set_ne {α : Type} (l : List α) {i j : Nat} (a d : α) (h : i ≠ j) :
    (l.set i a).getD j d = l.getD j d := by
  induction l generalizing i j with
  | nil => simp
  | cons x xs ih =>
    cases i with
    | zero =>
      cases j with
      | zero => exact absurd rfl h
      | succ m => simp
    | succ n =>
      cases j with
      | zero => simp
      | succ m => simpa using ih (fun hnm => h (by omega))

lemma lt_of_getD_some {α : Type} {l : List (Option α)} {i : Nat} {c : α}
    (h : l.getD i none = some c) : i < l.length := by
  by_contra hi
  rw [getD_eq_default l i none (by omega)] at h
  exact Option.noConfusion h

lemma mem_of_getD_some {α : Type} {l : List (Option α)} {i : Nat} {c : α}
    (h : l.getD i none = some c) : some c ∈ l := by
  induction l generalizing i with
  | nil => simp at h
  | cons x xs ih =>
    cases i with
    | zero => simp at h; simp [h]
    | succ n => exact List.mem_cons_of_mem _ (ih (by simpa using h))

lemma countP_set_add {α : Type} (p : α → Bool) (l : List α) (i : Nat) (a d : α)
    (h : i < l.length) :
    (l.set i a).countP p + (if p (l.getD i d) then 1 else 0)
      = l.countP p + (if p a then 1 else 0) := by
  induction l generalizing i with
  | nil => simp at h
  | cons x xs ih =>
    cases i with
    | zero => simp [List.countP_cons]; omega
    | succ n =>
      have := ih n (by simpa using h)
      simp only [List.set_cons_succ, List.countP_cons, List.getD_cons_succ] at *
      omega

lemma sum_map_set {α : Type} (f : α → Nat) (l : List α) (i : Nat) (a d : α)
    (h : i < l.length) :
    ((l.set i a).map f).sum + f (l.getD i d) = (l.map f).sum + f a := by
  induction l generalizing i with
  | nil => simp at h
  | cons x xs ih =>
    cases i with
    | zero => simp; omega
    | succ n =>
      have := ih n (by simpa using h)
      simp only [List.set_cons_succ, List.map_cons, List.sum_cons, List.getD_cons_succ] at *
      omega

lemma getLast_decomp {α : Type} {l : List α} (h : l ≠ []) :
    ∃ ys a, l = ys ++ [a] ∧ l.getLast? = some a ∧ l.dropLast = ys := by
  refine ⟨l.dropLast, l.getLast h, ?_, ?_, rfl⟩
  · exact (List.dropLast_append_getLast h).symm
  · exact List.getLast?_eq_getLast l h

lemma getD_range_map {α : Type} (f : Nat → α) {n i : Nat} (d : α) (h : i < n) :
    ((List.range n).map f).getD i d = f i := by
  have hlen : i < ((List.range n).map f).length := by simpa using h
  rw [List.getD_eq_getElem _ _ hlen]
  simp

/-! ### Membership lemmas for the action generator -/

lemma mem_usable_idxs {hand : List (Option Card)} {i : Nat} :
    i ∈ usable_idxs hand ↔ ∃ card, hand.getD i none = some card := by
  simp only [usable_idxs, List.mem_filter, List.mem_range, Option.isSome_iff_exists]
  constructor
  · rintro ⟨-, c, h2⟩
    exact ⟨c, h2⟩
  · rintro ⟨c, h2⟩
    exact ⟨lt_of_getD_some h2, c, h2⟩

lemma mem_hand_ids_matching {hand : List (Option Card)} {p : Card → Bool} {j : Nat} :
    j ∈ hand_ids_matching hand p ↔
      ∃ card, hand.getD j none = some card ∧ p card = true := by
  simp only [hand_ids_matching, List.mem_filter, List.mem_range]
  constructor
  · rintro ⟨-, hp⟩
    cases hc : hand.getD j none with
    | none => rw [hc] at hp; exact absurd hp (by simp)
    | some card => rw [hc] at hp; exact ⟨card, rfl, hp⟩
  · rintro ⟨card, hc, hp⟩
    refine ⟨lt_of_getD_some hc, ?_⟩
    rw [hc]
    exact hp

lemma mem_available_play {s : GameState} {pid i : Nat} :
    Action.play i ∈ s.get_available_actions pid ↔ ∃ card, s.slot_at pid i = some card := by
  unfold GameState.get_available_actions
  by_cases hh : 0 < s.hints_remaining <;>
    simp [hh, List.mem_append, List.mem_map, List.mem_flatMap, List.mem_range,
      mem_usable_idxs, GameState.slot_at]

lemma mem_available_discard {s : GameState} {pid i : Nat} :
    Action.discard i ∈ s.get_available_actions pid ↔
      ∃ card, s.slot_at pid i = some card := by
  unfold GameState.get_available_actions
  by_cases hh : 0 < s.hints_remaining <;>
    simp [hh, List.mem_append, List.mem_map, List.mem_flatMap, List.mem_range,
      mem_usable_idxs, GameState.slot_at]

lemma mem_available_hint {s : GameState} {pid other : Nat} {ids : List Nat}
    {ht : HintType} {hv : HintValue}
    (h : Action.hint other ids ht hv ∈ s.get_available_actions pid) :
    0 < s.hints_remaining ∧ other < s.hands.length ∧
      ((∃ c, ht = .colour ∧ hv = .colour c ∧
          ids = hand_ids_matching (s.hands.getD other [])
            (fun card => decide (card.colour = c))) ∨
        (∃ v, ht = .value ∧ hv = .value v ∧
          ids = hand_ids_matching (s.hands.getD other [])
            (fun card => decide (card.value = v)))) := by
  simp only [GameState.get_available_actions] at h
  rw [List.mem_append] at h
  rcases h with h | h
  · rw [List.mem_append] at h
    rcases h with h | h <;>
    · rw [List.mem_map] at h
      obtain ⟨a, -, heq⟩ := h
      exact absurd heq (by simp)
  · by_cases hh : 0 < s.hints_remaining
    · refine ⟨hh, ?_⟩
      rw [if_pos hh, List.mem_flatMap] at h
      obtain ⟨o, ho, h⟩ := h
      rw [List.mem_range] at ho
      rw [List.mem_append] at h
      rcases h with h | h <;> rw [List.mem_map] at h
      · obtain ⟨c, -, heq⟩ := h
        obtain ⟨h1, h2, h3, h4⟩ := Action.hint.inj heq
        subst h1
        exact ⟨ho, Or.inl ⟨c, h3.symm, h4.symm, h2.symm⟩⟩
      · obtain ⟨v, -, heq⟩ := h
        obtain ⟨h1, h2, h3, h4⟩ := Action.hint.inj heq
        subst h1
        exact ⟨ho, Or.inr ⟨v, h3.symm, h4.symm, h2.symm⟩⟩
    · rw [if_neg hh] at h
      exact absurd h (by simp)

/-- An available hint's inclusion flag for a slot holding `card` is
exactly whether `card` matches the hinted value: available hints are
truthful and maximal. -/
lemma hint_included_iff {s : GameState} {pid other : Nat} {ids : List Nat}
    {ht : HintType} {hv : HintValue} {j : Nat} {card : Card}
    (h : Action.hint other ids ht hv ∈ s.get_available_actions pid)
    (hslot : s.slot_at other j = some card) :
    decide (j ∈ ids) = hint_matches ht hv (card.colour, card.value) := by
  obtain ⟨-, -, hcase⟩ := mem_available_hint h
  rcases hcase with ⟨c, hht, hhv, hids⟩ | ⟨v, hht, hhv, hids⟩ <;> subst hht <;> subst hhv
  · show decide (j ∈ ids) = decide (card.colour = c)
    rw [decide_eq_decide, hids, mem_hand_ids_matching]
    constructor
    · rintro ⟨card2, hc2, hp2⟩
      rw [GameState.slot_at] at hslot
      rw [hslot] at hc2
      cases hc2
      simpa using hp2
    · intro hcol
      exact ⟨card, hslot, by simpa using hcol⟩
  · show decide (j ∈ ids) = decide (card.value = v)
    rw [decide_eq_decide, hids, mem_hand_ids_matching]
    constructor
    · rintro ⟨card2, hc2, hp2⟩
      rw [GameState.slot_at] at hslot
      rw [hslot] at hc2
      cases hc2
      simpa using hp2
    · intro hval
      exact ⟨card, hslot, by simpa using hval⟩

/-! ### Basic facts and equation lemmas -/

lemma mem_colour_values (c : Colour) : c ∈ colour_values := by
  cases c <;> simp [colour_values]

lemma getD_mem_of_lt {α : Type} (l : List α) (i : Nat) (d : α) (h : i < l.length) :
    l.getD i d ∈ l := by
  induction l generalizing i with
  | nil => simp at h
  | cons x xs ih =>
    cases i with
    | zero => simp
    | succ n => exact List.mem_cons_of_mem _ (ih n (by simpa using h))

lemma hands_lt_of_slot {s : GameState} {pid i : Nat} {card : Card}
    (h : s.slot_at pid i = some card) : pid < s.hands.length := by
  by_contra hc
  rw [GameState.slot_at, getD_eq_default s.hands pid [] (by omega)] at h
  simp at h

lemma put_card_fst (s : GameState) (card : Card) :
    (s.put_card_on_discard_pile card).1
      = { s with discard_pile := s.discard_pile ++ [card] } := by
  unfold GameState.put_card_on_discard_pile
  dsimp only
  split <;> rfl

lemma put_card_snd (s : GameState) (card : Card) :
    (s.put_card_on_discard_pile card).2
      = if card.value ≤ s.table card.colour
            ∨ idCount s.discard_pile card.colour card.value + 1
                < CARD_COUNTS card.colour card.value then
          none
        else
          some (.lastCopyDiscarded card) := by
  have hcount : idCount (s.discard_pile ++ [card]) card.colour card.value
      = idCount s.discard_pile card.colour card.value + 1 := by
    unfold idCount
    rw [List.countP_append]
    simp [card_is]
  unfold GameState.put_card_on_discard_pile
  unfold GameState.is_card_on_table GameState.are_there_cards_remaining_of_this_type
  dsimp only
  split
  · rename_i hcond
    rw [if_neg (by omega)]
  · rename_i hcond
    rw [if_pos (by omega)]

lemma apply_action_discard_eq {s : GameState} {pid i : Nat} {card : Card}
    (hslot : s.slot_at pid i = some card) :
    s.apply_action pid (.discard i)
      = (let s1 := remove_card s pid i
         let pc := s1.put_card_on_discard_pile card
         if pc.2.isSome then
           some pc
         else
           some (draw_into { pc.1 with hints_remaining := pc.1.hints_remaining + 1 }
             pid i, none)) := by
  unfold GameState.apply_action
  dsimp only
  rw [hslot]

lemma apply_action_play_eq {s : GameState} {pid i : Nat} {card : Card}
    (hslot : s.slot_at pid i = some card) :
    s.apply_action pid (.play i)
      = (let s1 := remove_card s pid i
         if s1.table card.colour + 1 = card.value then
           some (draw_into { s1 with
             table := Function.update s1.table card.colour (s1.table card.colour + 1) }
             pid i, none)
         else
           let s2 := { s1 with mistakes_remaining := s1.mistakes_remaining - 1 }
           let pc := s2.put_card_on_discard_pile card
           if pc.2.isSome then
             some pc
           else if pc.1.mistakes_remaining = 0 then
             some (pc.1, some .ranOutOfMistakes)
           else
             some (draw_into pc.1 pid i, none)) := by
  unfold GameState.apply_action
  dsimp only
  rw [hslot]

lemma draw_into_eq (s : GameState) (pid i : Nat) :
    draw_into s pid i = s ∨
      ∃ ys a, s.deck = ys ++ [a] ∧
        draw_into s pid i
          = { s with deck := ys, hands := set_hand_slot s.hands pid i (some a) } := by
  unfold draw_into
  by_cases h : 0 < s.deck.length
  · right
    have hne : s.deck ≠ [] := by
      intro hnil
      rw [hnil] at h
      simp at h
    obtain ⟨ys, a, hdecomp, hlast, hdrop⟩ := getLast_decomp hne
    refine ⟨ys, a, hdecomp, ?_⟩
    rw [if_pos h, hlast, hdrop]
  · left
    rw [if_neg h]

lemma getD_replicate {α : Type} (x d : α) (n p : Nat) :
    (List.replicate n x).getD p d = if p < n then x else d := by
  induction n generalizing p with
  | zero => simp
  | succ m ih =>
    cases p with
    | zero => simp [List.replicate]
    | succ q =>
      rw [List.replicate, List.getD_cons_succ, ih]
      by_cases h : q < m
      · rw [if_pos h, if_pos (by omega)]
      · rw [if_neg h, if_neg (by omega)]

lemma getD2_set_hand (hands : List (List (Option Card))) (pid i : Nat) (x : Option Card)
    (hp : pid < hands.length) (hi : i < (hands.getD pid []).length) (p j : Nat) :
    ((set_hand_slot hands pid i x).getD p []).getD j none
      = if p = pid ∧ j = i then x else (hands.getD p []).getD j none := by
  unfold set_hand_slot
  by_cases hpp : p = pid
  · subst hpp
    rw [getD_set_self _ _ _ _ hp]
    by_cases hjj : j = i
    · subst hjj
      rw [getD_set_self _ _ _ _ hi, if_pos ⟨rfl, rfl⟩]
    · rw [getD_set_ne _ _ _ (fun h => hjj h.symm), if_neg (fun h => hjj h.2)]
  · rw [getD_set_ne _ _ _ (fun h => hpp h.symm), if_neg (fun h => hpp h.1)]

lemma getD2_set_hint (hints : List (List Grid)) (pid i : Nat) (g : Grid)
    (hp : pid < hints.length) (hi : i < (hints.getD pid []).length) (p j : Nat) :
    ((set_hint_slot hints pid i g).getD p []).getD j initial_hints
      = if p = pid ∧ j = i then g else (hints.getD p []).getD j initial_hints := by
  unfold set_hint_slot
  by_cases hpp : p = pid
  · subst hpp
    rw [getD_set_self _ _ _ _ hp]
    by_cases hjj : j = i
    · subst hjj
      rw [getD_set_self _ _ _ _ hi, if_pos ⟨rfl, rfl⟩]
    · rw [getD_set_ne _ _ _ (fun h => hjj h.symm), if_neg (fun h => hjj h.2)]
  · rw [getD_set_ne _ _ _ (fun h => hpp h.symm), if_neg (fun h => hpp h.1)]

lemma length_set_hand (hands : List (List (Option Card))) (pid i : Nat) (x : Option Card) :
    (set_hand_slot hands pid i x).length = hands.length := by
  simp [set_hand_slot]

lemma length_set_hint (hints : List (List Grid)) (pid i : Nat) (g : Grid) :
    (set_hint_slot hints pid i g).length = hints.length := by
  simp [set_hint_slot]

lemma hand5_set_hand (hands : List (List (Option Card))) (pid i : Nat) (x : Option Card)
    (hp : pid < hands.length) (h5 : ∀ h ∈ hands, h.length = 5) :
    ∀ h ∈ set_hand_slot hands pid i x, h.length = 5 := by
  intro h hm
  rcases List.mem_or_eq_of_mem_set hm with hm | rfl
  · exact h5 _ hm
  · rw [List.length_set]
    exact h5 _ (getD_mem_of_lt _ _ _ hp)

lemma row5_set_hint (hints : List (List Grid)) (pid i : Nat) (g : Grid)
    (hp : pid < hints.length) (h5 : ∀ row ∈ hints, row.length = 5) :
    ∀ row ∈ set_hint_slot hints pid i g, row.length = 5 := by
  intro row hm
  rcases List.mem_or_eq_of_mem_set hm with hm | rfl
  · exact h5 _ hm
  · rw [List.length_set]
    exact h5 _ (getD_mem_of_lt _ _ _ hp)

lemma someCount_set_hand (hands : List (List (Option Card))) (pid i : Nat) (x : Option Card)
    (hp : pid < hands.length) (hi : i < (hands.getD pid []).length) :
    ((set_hand_slot hands pid i x).map (fun h => h.countP Option.isSome)).sum
        + (if ((hands.getD pid []).getD i none).isSome then 1 else 0)
      = (hands.map (fun h => h.countP Option.isSome)).sum
        + (if x.isSome then 1 else 0) := by
  unfold set_hand_slot
  have h1 := sum_map_set (fun h => h.countP Option.isSome) hands pid
    ((hands.getD pid []).set i x) [] hp
  have h2 := countP_set_add Option.isSome (hands.getD pid []) i x none hi
  dsimp only at h1 h2 ⊢
  omega

lemma idc_set_hand (hands : List (List (Option Card))) (pid i : Nat) (x : Option Card)
    (c : Colour) (v : Nat) (hp : pid < hands.length)
    (hi : i < (hands.getD pid []).length) :
    ((set_hand_slot hands pid i x).map (fun h => idCountOpt h c v)).sum
        + (if slot_is c v ((hands.getD pid []).getD i none) then 1 else 0)
      = (hands.map (fun h => idCountOpt h c v)).sum
        + (if slot_is c v x then 1 else 0) := by
  unfold set_hand_slot
  have h1 := sum_map_set (fun h => idCountOpt h c v) hands pid
    ((hands.getD pid []).set i x) [] hp
  have h2 := countP_set_add (slot_is c v) (hands.getD pid []) i x none hi
  unfold idCountOpt at *
  dsimp only at h1 h2 ⊢
  omega

lemma idCount_append (l1 l2 : List Card) (c : Colour) (v : Nat) :
    idCount (l1 ++ l2) c v = idCount l1 c v + idCount l2 c v := by
  unfold idCount
  rw [List.countP_append]

lemma idCount_singleton (card : Card) (c : Colour) (v : Nat) :
    idCount [card] c v = if card_is c v card then 1 else 0 := by
  unfold idCount
  rw [List.countP_cons]
  simp [List.countP_nil]

lemma sum_map_update_table (t : Colour → Nat) (c : Colour) (x : Nat) :
    (colour_values.map (Function.update t c x)).sum + t c
      = (colour_values.map t).sum + x := by
  cases c <;> simp [colour_values, Function.update] <;> omega

lemma table_contrib_update (t : Colour → Nat) (c0 c : Colour) (v : Nat) :
    table_contrib (Function.update t c0 (t c0 + 1)) c v
      = table_contrib t c v + (if c = c0 ∧ v = t c0 + 1 then 1 else 0) := by
  unfold table_contrib
  by_cases hc : c = c0
  · subst hc
    rw [Function.update_same]
    simp only [true_and]
    split_ifs <;> omega
  · rw [Function.update_noteq hc]
    simp only [hc, false_and, if_false]
    split_ifs <;> omega

/-! ### Invariant preservation -/

lemma slot_wf {s : GameState} {pid i : Nat} {card : Card} (hInv : Inv s)
    (hslot : s.slot_at pid i = some card) :
    pid < s.hands.length ∧ pid < s.hints.length ∧ i < (s.hands.getD pid []).length ∧
      (s.hands.getD pid []).length = 5 ∧ (s.hints.getD pid []).length = 5 := by
  have hslot2 : (s.hands.getD pid []).getD i none = some card := hslot
  have hpl : pid < s.hands.length := hands_lt_of_slot hslot
  have hil : i < (s.hands.getD pid []).length := lt_of_getD_some hslot2
  have hhl : pid < s.hints.length := by
    have h1 := hInv.hands_len
    have h2 := hInv.hints_len
    omega
  exact ⟨hpl, hhl, hil, hInv.hand5 _ (getD_mem_of_lt _ _ _ hpl),
    hInv.row5 _ (getD_mem_of_lt _ _ _ hhl)⟩

lemma removed_hands_legal {s : GameState} {pid i : Nat} (hInv : Inv s)
    (hpl : pid < s.hands.length) (hil : i < (s.hands.getD pid []).length) :
    ∀ p j card2,
      ((set_hand_slot s.hands pid i none).getD p []).getD j none = some card2 →
      card2.value ∈ card_values := by
  intro p j card2 hs2
  rw [getD2_set_hand s.hands pid i none hpl hil] at hs2
  by_cases hpj : p = pid ∧ j = i
  · rw [if_pos hpj] at hs2
    exact absurd hs2 (by simp)
  · rw [if_neg hpj] at hs2
    exact hInv.hands_legal p j card2 hs2

lemma removed_truth {s : GameState} {pid i : Nat} (hInv : Inv s)
    (hpl : pid < s.hands.length) (hil : i < (s.hands.getD pid []).length)
    (hhl : pid < s.hints.length) (hi5 : i < (s.hints.getD pid []).length) :
    ∀ p j card2,
      ((set_hand_slot s.hands pid i none).getD p []).getD j none = some card2 →
      ((set_hint_slot s.hints pid i initial_hints).getD p []).getD j initial_hints
        (card2.colour, card2.value) = true := by
  intro p j card2 hs2
  rw [getD2_set_hand s.hands pid i none hpl hil] at hs2
  rw [getD2_set_hint s.hints pid i initial_hints hhl hi5]
  by_cases hpj : p = pid ∧ j = i
  · rw [if_pos hpj] at hs2
    exact absurd hs2 (by simp)
  · rw [if_neg hpj] at hs2
    rw [if_neg hpj]
    exact hInv.truth p j card2 hs2

/-- The `Inv` fields for the state right after a card has been taken
out of slot `(pid, i)`, its hint grid reset, and the card appended to
the discard pile — with arbitrary values of the two counters (the hint
counter non-negative). -/
lemma inv_discard_shape {s : GameState} {pid i : Nat} {card : Card} (hInv : Inv s)
    (hslot : s.slot_at pid i = some card) (hr mr : Int) (hhr : 0 ≤ hr) :
    Inv { num_players := s.num_players
          deck := s.deck
          discard_pile := s.discard_pile ++ [card]
          table := s.table
          hints_remaining := hr
          mistakes_remaining := mr
          hints := set_hint_slot s.hints pid i initial_hints
          hands := set_hand_slot s.hands pid i none } := by
  obtain ⟨hpl, hhl, hil, hh5, hr5⟩ := slot_wf hInv hslot
  have hslot2 : (s.hands.getD pid []).getD i none = some card := hslot
  have hi5 : i < (s.hints.getD pid []).length := by omega
  refine ⟨?_, ?_, ?_, ?_, hhr, ?_, ?_, ?_, ?_, ?_⟩
  · simpa [length_set_hand] using hInv.hands_len
  · simpa [length_set_hint] using hInv.hints_len
  · exact hand5_set_hand _ _ _ _ hpl hInv.hand5
  · exact row5_set_hint _ _ _ _ hhl hInv.row5
  · have hc := hInv.conserve
    unfold conservation_sum at hc ⊢
    dsimp only
    have hsc := someCount_set_hand s.hands pid i none hpl hil
    rw [hslot2] at hsc
    simp at hsc
    rw [List.length_append]
    simp only [List.length_singleton]
    omega
  · intro c v hv
    have hb := hInv.id_balance c v hv
    dsimp only
    have hic := idc_set_hand s.hands pid i none c v hpl hil
    rw [hslot2] at hic
    simp [slot_is] at hic
    rw [idCount_append, idCount_singleton]
    unfold table_contrib at hb ⊢
    omega
  · exact hInv.deck_legal
  · exact removed_hands_legal hInv hpl hil
  · exact removed_truth hInv hpl hil hhl hi5

/-- The `Inv` fields for the state right after a successful play: card
out of the slot, grid reset, table advanced. -/
lemma inv_play_shape {s : GameState} {pid i : Nat} {card : Card} (hInv : Inv s)
    (hslot : s.slot_at pid i = some card)
    (hplay : s.table card.colour + 1 = card.value) :
    Inv { num_players := s.num_players
          deck := s.deck
          discard_pile := s.discard_pile
          table := Function.update s.table card.colour (s.table card.colour + 1)
          hints_remaining := s.hints_remaining
          mistakes_remaining := s.mistakes_remaining
          hints := set_hint_slot s.hints pid i initial_hints
          hands := set_hand_slot s.hands pid i none } := by
  obtain ⟨hpl, hhl, hil, hh5, hr5⟩ := slot_wf hInv hslot
  have hslot2 : (s.hands.getD pid []).getD i none = some card := hslot
  have hi5 : i < (s.hints.getD pid []).length := by omega
  refine ⟨?_, ?_, ?_, ?_, hInv.hints_nonneg, ?_, ?_, ?_, ?_, ?_⟩
  · simpa [length_set_hand] using hInv.hands_len
  · simpa [length_set_hint] using hInv.hints_len
  · exact hand5_set_hand _ _ _ _ hpl hInv.hand5
  · exact row5_set_hint _ _ _ _ hhl hInv.row5
  · have hc := hInv.conserve
    unfold conservation_sum at hc ⊢
    dsimp only
    have hsc := someCount_set_hand s.hands pid i none hpl hil
    rw [hslot2] at hsc
    simp at hsc
    have htb := sum_map_update_table s.table card.colour (s.table card.colour + 1)
    omega
  · intro c v hv
    have hb := hInv.id_balance c v hv
    dsimp only
    have hic := idc_set_hand s.hands pid i none c v hpl hil
    rw [hslot2] at hic
    simp [slot_is] at hic
    have htc := table_contrib_update s.table card.colour c v
    have hiff : (if card_is c v card = true then 1 else 0)
        = (if c = card.colour ∧ v = s.table card.colour + 1 then 1 else 0) := by
      unfold card_is
      by_cases hA : card.colour = c ∧ card.value = v
      · rw [if_pos (by simpa using hA), if_pos ⟨hA.1.symm, by omega⟩]
      · rw [if_neg (by simpa using hA), if_neg (fun hB => hA ⟨hB.1.symm, by omega⟩)]
    omega
  · exact hInv.deck_legal
  · exact removed_hands_legal hInv hpl hil
  · exact removed_truth hInv hpl hil hhl hi5

/-- Drawing a replacement into an empty slot whose grid is fully open
preserves the invariant. -/
lemma inv_draw_into {s : GameState} {pid i : Nat} (hInv : Inv s)
    (hslot : s.slot_at pid i = none) (hp : pid < s.hands.length)
    (hi : i < (s.hands.getD pid []).length)
    (hgrid : ∀ cv, s.grid_at pid i cv = true) :
    Inv (draw_into s pid i) := by
  rcases draw_into_eq s pid i with heq | ⟨ys, a, hdeck, heq⟩
  · rw [heq]
    exact hInv
  · rw [heq]
    have hslot2 : (s.hands.getD pid []).getD i none = none := hslot
    have hlen : s.deck.length = ys.length + 1 := by
      rw [hdeck]
      simp
    have hamem : a ∈ s.deck := by
      rw [hdeck]
      simp
    have hysmem : ∀ x ∈ ys, x ∈ s.deck := by
      intro x hx
      rw [hdeck]
      exact List.mem_append_left _ hx
    refine ⟨?_, hInv.hints_len, ?_, hInv.row5, hInv.hints_nonneg, ?_, ?_, ?_, ?_, ?_⟩
    · simpa [length_set_hand] using hInv.hands_len
    · exact hand5_set_hand _ _ _ _ hp hInv.hand5
    · have hc := hInv.conserve
      unfold conservation_sum at hc ⊢
      dsimp only
      have hsc := someCount_set_hand s.hands pid i (some a) hp hi
      rw [hslot2] at hsc
      simp at hsc
      omega
    · intro c v hv
      have hb := hInv.id_balance c v hv
      dsimp only
      have hic := idc_set_hand s.hands pid i (some a) c v hp hi
      rw [hslot2] at hic
      simp [slot_is] at hic
      have hdc : idCount s.deck c v = idCount ys c v + (if card_is c v a = true then 1 else 0) := by
        rw [hdeck, idCount_append, idCount_singleton]
      omega
    · intro x hx
      exact hInv.deck_legal x (hysmem x hx)
    · intro p j card2 hs2
      have hs3 : ((set_hand_slot s.hands pid i (some a)).getD p []).getD j none
          = some card2 := hs2
      rw [getD2_set_hand s.hands pid i (some a) hp hi] at hs3
      by_cases hpj : p = pid ∧ j = i
      · rw [if_pos hpj] at hs3
        obtain rfl : a = card2 := by
          injection hs3
        exact hInv.deck_legal _ hamem
      · rw [if_neg hpj] at hs3
        exact hInv.hands_legal p j card2 hs3
    · intro p j card2 hs2
      have hs3 : ((set_hand_slot s.hands pid i (some a)).getD p []).getD j none
          = some card2 := hs2
      rw [getD2_set_hand s.hands pid i (some a) hp hi] at hs3
      show s.grid_at p j (card2.colour, card2.value) = true
      by_cases hpj : p = pid ∧ j = i
      · rw [if_pos hpj] at hs3
        obtain rfl : a = card2 := by
          injection hs3
        rw [hpj.1, hpj.2]
        exact hgrid _
      · rw [if_neg hpj] at hs3
        exact hInv.truth p j card2 hs3

lemma inv_apply_discard {s s2 : GameState} {r : Option GameOver} {pid i : Nat}
    {card : Card} (hInv : Inv s) (hslot : s.slot_at pid i = some card)
    (happ : s.apply_action pid (.discard i) = some (s2, r)) : Inv s2 := by
  obtain ⟨hpl, hhl, hil, hh5, hr5⟩ := slot_wf hInv hslot
  rw [apply_action_discard_eq hslot] at happ
  dsimp only at happ
  split at happ
  · have hs2 := congrArg Prod.fst (Option.some.inj happ)
    dsimp only at hs2
    rw [← hs2, put_card_fst]
    exact inv_discard_shape hInv hslot s.hints_remaining s.mistakes_remaining
      hInv.hints_nonneg
  · have hs2 := congrArg Prod.fst (Option.some.inj happ)
    dsimp only at hs2
    rw [← hs2, put_card_fst]
    dsimp only
    apply inv_draw_into
      (inv_discard_shape hInv hslot (s.hints_remaining + 1) s.mistakes_remaining
        (by have := hInv.hints_nonneg; omega))
    · show ((set_hand_slot s.hands pid i none).getD pid []).getD i none = none
      rw [getD2_set_hand s.hands pid i none hpl hil, if_pos ⟨rfl, rfl⟩]
    · show pid < (set_hand_slot s.hands pid i none).length
      rw [length_set_hand]
      exact hpl
    · show i < ((set_hand_slot s.hands pid i none).getD pid []).length
      unfold set_hand_slot
      rw [getD_set_self _ _ _ _ hpl, List.length_set]
      exact hil
    · intro cv
      show ((set_hint_slot s.hints pid i initial_hints).getD pid []).getD i
        initial_hints cv = true
      rw [getD2_set_hint s.hints pid i initial_hints hhl (by omega), if_pos ⟨rfl, rfl⟩]
      rfl

lemma inv_apply_play {s s2 : GameState} {r : Option GameOver} {pid i : Nat}
    {card : Card} (hInv : Inv s) (hslot : s.slot_at pid i = some card)
    (happ : s.apply_action pid (.play i) = some (s2, r)) : Inv s2 := by
  obtain ⟨hpl, hhl, hil, hh5, hr5⟩ := slot_wf hInv hslot
  rw [apply_action_play_eq hslot] at happ
  dsimp only at happ
  split at happ
  · rename_i hplay
    have hplay2 : s.table card.colour + 1 = card.value := hplay
    have hs2 := congrArg Prod.fst (Option.some.inj happ)
    dsimp only at hs2
    rw [← hs2]
    apply inv_draw_into (inv_play_shape hInv hslot hplay2)
    · show ((set_hand_slot s.hands pid i none).getD pid []).getD i none = none
      rw [getD2_set_hand s.hands pid i none hpl hil, if_pos ⟨rfl, rfl⟩]
    · show pid < (set_hand_slot s.hands pid i none).length
      rw [length_set_hand]
      exact hpl
    · show i < ((set_hand_slot s.hands pid i none).getD pid []).length
      unfold set_hand_slot
      rw [getD_set_self _ _ _ _ hpl, List.length_set]
      exact hil
    · intro cv
      show ((set_hint_slot s.hints pid i initial_hints).getD pid []).getD i
        initial_hints cv = true
      rw [getD2_set_hint s.hints pid i initial_hints hhl (by omega), if_pos ⟨rfl, rfl⟩]
      rfl
  · split at happ
    · have hs2 := congrArg Prod.fst (Option.some.inj happ)
      dsimp only at hs2
      rw [← hs2, put_card_fst]
      exact inv_discard_shape hInv hslot s.hints_remaining (s.mistakes_remaining - 1)
        hInv.hints_nonneg
    · split at happ
      · have hs2 := congrArg Prod.fst (Option.some.inj happ)
        dsimp only at hs2
        rw [← hs2, put_card_fst]
        exact inv_discard_shape hInv hslot s.hints_remaining (s.mistakes_remaining - 1)
          hInv.hints_nonneg
      · have hs2 := congrArg Prod.fst (Option.some.inj happ)
        dsimp only at hs2
        rw [← hs2, put_card_fst]
        dsimp only
        apply inv_draw_into
          (inv_discard_shape hInv hslot s.hints_remaining (s.mistakes_remaining - 1)
            hInv.hints_nonneg)
        · show ((set_hand_slot s.hands pid i none).getD pid []).getD i none = none
          rw [getD2_set_hand s.hands pid i none hpl hil, if_pos ⟨rfl, rfl⟩]
        · show pid < (set_hand_slot s.hands pid i none).length
          rw [length_set_hand]
          exact hpl
        · show i < ((set_hand_slot s.hands pid i none).getD pid []).length
          unfold set_hand_slot
          rw [getD_set_self _ _ _ _ hpl, List.length_set]
          exact hil
        · intro cv
          show ((set_hint_slot s.hints pid i initial_hints).getD pid []).getD i
            initial_hints cv = true
          rw [getD2_set_hint s.hints pid i initial_hints hhl (by omega),
            if_pos ⟨rfl, rfl⟩]
          rfl

lemma inv_apply_hint {s s2 : GameState} {r : Option GameOver} {pid other : Nat}
    {ids : List Nat} {ht : HintType} {hv : HintValue} (hInv : Inv s)
    (ha : Action.hint other ids ht hv ∈ s.get_available_actions pid)
    (happ : s.apply_action pid (.hint other ids ht hv) = some (s2, r)) : Inv s2 := by
  obtain ⟨hhr, hol, -⟩ := mem_available_hint ha
  unfold GameState.apply_action at happ
  dsimp only at happ
  split at happ
  · rename_i hcond
    have hs2 := congrArg Prod.fst (Option.some.inj happ)
    dsimp only at hs2
    rw [← hs2]
    refine ⟨hInv.hands_len, ?_, hInv.hand5, ?_, ?_, hInv.conserve, hInv.id_balance,
      hInv.deck_legal, hInv.hands_legal, ?_⟩
    · simpa using hInv.hints_len
    · intro row hm
      rcases List.mem_or_eq_of_mem_set hm with hm | rfl
      · exact hInv.row5 _ hm
      · simp
    · show (0 : Int) ≤ s.hints_remaining - 1
      omega
    · intro p j card2 hs3
      have hslot3 : s.slot_at p j = some card2 := hs3
      have hpj : p < s.hands.length := hands_lt_of_slot hslot3
      have hj5 : (s.hands.getD p []).length = 5 :=
        hInv.hand5 _ (getD_mem_of_lt _ _ _ hpj)
      have hjl : j < 5 := by
        have := lt_of_getD_some (hslot3 : (s.hands.getD p []).getD j none = some card2)
        omega
      show ((s.hints.set other _).getD p []).getD j initial_hints
        (card2.colour, card2.value) = true
      by_cases hpo : p = other
      · subst hpo
        rw [getD_set_self _ _ _ _ hcond.1, getD_range_map _ _ hjl]
        have hinc := hint_included_iff ha hslot3
        unfold apply_hint
        rw [hinc]
        have hold : (s.hints.getD p []).getD j initial_hints
            (card2.colour, card2.value) = true := hInv.truth p j card2 hslot3
        cases hm : hint_matches ht hv (card2.colour, card2.value) <;>
          simpa using hold
      · rw [getD_set_ne _ _ _ (fun h => hpo h.symm)]
        exact hInv.truth p j card2 hslot3
  · exact absurd happ (by simp)

lemma dealHand_spec (k : Nat) (deck : List Card) :
    (dealHand deck k).1.length = k ∧
      (dealHand deck k).2.length = deck.length - k ∧
      (∀ c v, idCountOpt (dealHand deck k).1 c v + idCount (dealHand deck k).2 c v
        = idCount deck c v) ∧
      (∀ card, some card ∈ (dealHand deck k).1 → card ∈ deck) ∧
      (∀ card ∈ (dealHand deck k).2, card ∈ deck) ∧
      (k ≤ deck.length → (dealHand deck k).1.countP Option.isSome = k) := by
  induction k generalizing deck with
  | zero =>
    refine ⟨rfl, by simp [dealHand], fun c v => ?_, by simp [dealHand], by simp [dealHand],
      fun _ => rfl⟩
    simp [dealHand, idCountOpt]
  | succ m ih =>
    by_cases hd : deck = []
    · subst hd
      have hrec := ih []
      have hdeal : dealHand ([] : List Card) (m + 1)
          = (none :: (dealHand [] m).1, (dealHand [] m).2) := rfl
      rw [hdeal]
      refine ⟨by simpa using hrec.1, by simpa using hrec.2.1, fun c v => ?_, ?_, ?_, ?_⟩
      · have := hrec.2.2.1 c v
        simpa [idCountOpt, List.countP_cons, slot_is] using this
      · intro card hm
        rcases List.mem_cons.mp hm with hm | hm
        · exact absurd hm.symm (by simp)
        · exact hrec.2.2.2.1 card hm
      · exact hrec.2.2.2.2.1
      · intro hlen
        simp at hlen
    · obtain ⟨ys, a, hdeck, hlast, hdrop⟩ := getLast_decomp hd
      have hrec := ih ys
      have hdeal : dealHand deck (m + 1)
          = (deck.getLast? :: (dealHand deck.dropLast m).1,
             (dealHand deck.dropLast m).2) := rfl
      rw [hdeal, hlast, hdrop]
      have hlend : deck.length = ys.length + 1 := by rw [hdeck]; simp
      refine ⟨by simpa using hrec.1, by simp [hrec.2.1]; omega, fun c v => ?_, ?_, ?_, ?_⟩
      · have h1 := hrec.2.2.1 c v
        have h2 : idCount deck c v = idCount ys c v + (if card_is c v a = true then 1 else 0) := by
          rw [hdeck, idCount_append, idCount_singleton]
        simp only [idCountOpt, List.countP_cons, slot_is] at h1 ⊢
        omega
      · intro card hm
        rcases List.mem_cons.mp hm with hm | hm
        · have : a = card := by injection hm.symm
          rw [hdeck, ← this]
          simp
        · have := hrec.2.2.2.1 card hm
          rw [hdeck]
          exact List.mem_append_left _ this
      · intro card hm
        have := hrec.2.2.2.2.1 card hm
        rw [hdeck]
        exact List.mem_append_left _ this
      · intro hlen
        have hm5 : m ≤ ys.length := by omega
        have := hrec.2.2.2.2.2 hm5
        simp [List.countP_cons, this]

lemma init_hands_spec (n : Nat) (deck : List Card) :
    (init_hands n deck).1.length = n ∧
      (∀ h ∈ (init_hands n deck).1, h.length = 5) ∧
      (init_hands n deck).2.length = deck.length - 5 * n ∧
      (∀ c v, ((init_hands n deck).1.map (fun h => idCountOpt h c v)).sum
          + idCount (init_hands n deck).2 c v = idCount deck c v) ∧
      (∀ card, (∃ h ∈ (init_hands n deck).1, some card ∈ h) → card ∈ deck) ∧
      (∀ card ∈ (init_hands n deck).2, card ∈ deck) ∧
      (5 * n ≤ deck.length →
        ((init_hands n deck).1.map (fun h => h.countP Option.isSome)).sum = 5 * n) := by
  induction n generalizing deck with
  | zero =>
    exact ⟨rfl, by simp [init_hands], by simp [init_hands], fun c v => by simp [init_hands],
      by simp [init_hands], by simp [init_hands], fun _ => rfl⟩
  | succ m ih =>
    have hdeal := dealHand_spec 5 deck
    have hrec := ih (dealHand deck 5).2
    have hini : init_hands (m + 1) deck
        = ((dealHand deck 5).1 :: (init_hands m (dealHand deck 5).2).1,
           (init_hands m (dealHand deck 5).2).2) := rfl
    rw [hini]
    refine ⟨by simpa using hrec.1, ?_, ?_, fun c v => ?_, ?_, ?_, ?_⟩
    · intro h hm
      rcases List.mem_cons.mp hm with rfl | hm
      · exact hdeal.1
      · exact hrec.2.1 h hm
    · have h1 := hrec.2.2.1
      have h2 := hdeal.2.1
      simp only [h1, h2]
      omega
    · have h1 := hrec.2.2.2.1 c v
      have h2 := hdeal.2.2.1 c v
      simp only [List.map_cons, List.sum_cons]
      omega
    · rintro card ⟨h, hm, hcm⟩
      rcases List.mem_cons.mp hm with rfl | hm
      · exact hdeal.2.2.2.1 card hcm
      · exact hdeal.2.2.2.2.1 card (hrec.2.2.2.2.1 card ⟨h, hm, hcm⟩)
    · intro card hm
      exact hdeal.2.2.2.2.1 card (hrec.2.2.2.2.2.1 card hm)
    · intro hlen
      have h2 := hdeal.2.1
      have h5 : 5 ≤ deck.length := by omega
      have hc5 := hdeal.2.2.2.2.2 h5
      have hrc := hrec.2.2.2.2.2.2 (by omega)
      simp only [List.map_cons, List.sum_cons, hc5, hrc]
      omega

lemma inv_initial {n : Nat} {deck : List Card} (hdeck : valid_deck deck)
    (hn : 5 * n ≤ 50) : Inv (GameState.initial n deck) := by
  obtain ⟨hlen, hlegal, hcounts⟩ := hdeck
  have hspec := init_hands_spec n deck
  unfold GameState.initial
  dsimp only
  refine ⟨hspec.1, by simp, hspec.2.1, ?_, by norm_num, ?_, ?_, ?_, ?_, ?_⟩
  · intro row hm
    rw [List.eq_of_mem_replicate hm]
    simp
  · unfold conservation_sum
    dsimp only
    have h1 := hspec.2.2.1
    have h2 := hspec.2.2.2.2.2.2 (by omega)
    have h3 : (colour_values.map (fun _ => (0 : Nat))).sum = 0 := by
      simp [colour_values]
    simp only [h3, List.length_nil, h1, h2]
    omega
  · intro c v hv
    have h1 := hspec.2.2.2.1 c v
    have h2 := hcounts c (mem_colour_values c) v hv
    have h3 : table_contrib (fun _ => 0) c v = 0 := by
      unfold table_contrib
      dsimp only
      split
      · omega
      · rfl
    dsimp only
    simp only [h3]
    have h4 : idCount ([] : List Card) c v = 0 := rfl
    omega
  · intro card hm
    exact hlegal card (hspec.2.2.2.2.2.1 card hm)
  · intro p i card hs
    have hs2 : (((init_hands n deck).1.getD p []).getD i none) = some card := hs
    have hp : p < (init_hands n deck).1.length := hands_lt_of_slot hs
    have hhand := getD_mem_of_lt (init_hands n deck).1 p [] hp
    exact hlegal card (hspec.2.2.2.2.1 card ⟨_, hhand, mem_of_getD_some hs2⟩)
  · intro p i card hs
    show ((List.replicate n (List.replicate 5 initial_hints)).getD p []).getD i
      initial_hints (card.colour, card.value) = true
    rw [getD_replicate]
    by_cases hp : p < n
    · rw [if_pos hp, getD_replicate]
      by_cases hi : i < 5
      · rw [if_pos hi]
        rfl
      · rw [if_neg hi]
        rfl
    · rw [if_neg hp]
      rfl

lemma inv_step {s s2 : GameState} {r : Option GameOver} {pid : Nat} {a : Action}
    (hInv : Inv s) (ha : a ∈ s.get_available_actions pid)
    (happ : s.apply_action pid a = some (s2, r)) : Inv s2 := by
  cases a with
  | discard i =>
    obtain ⟨card, hslot⟩ := mem_available_discard.mp ha
    exact inv_apply_discard hInv hslot happ
  | play i =>
    obtain ⟨card, hslot⟩ := mem_available_play.mp ha
    exact inv_apply_play hInv hslot happ
  | hint other ids ht hv =>
    exact inv_apply_hint hInv ha happ

lemma inv_of_reachable {s : GameState} (h : Reachable s) : Inv s := by
  induction h with
  | init n deck hdeck hn => exact inv_initial hdeck hn
  | step pid a hs hp ha happ ih => exact inv_step ih ha happ

/-! ### Certain-play soundness support -/

lemma mem_required {s : GameState} {cv : Colour × Nat} :
    cv ∈ s.get_required_cards ↔ ∃ c, cv = (c, s.table c + 1) ∧ s.table c < 5 := by
  unfold GameState.get_required_cards
  rw [List.mem_map]
  constructor
  · rintro ⟨c, hc, rfl⟩
    rw [List.mem_filter] at hc
    exact ⟨c, rfl, by simpa using hc.2⟩
  · rintro ⟨c, rfl, hlt⟩
    exact ⟨c, List.mem_filter.mpr ⟨mem_colour_values c, by simpa using hlt⟩, rfl⟩

lemma mem_all_identities {c : Colour} {v : Nat} (hv : v ∈ card_values) :
    (c, v) ∈ all_identities := by
  unfold all_identities
  rw [List.mem_flatMap]
  exact ⟨c, mem_colour_values c, List.mem_map.mpr ⟨v, hv, rfl⟩⟩

lemma map_range_getD {α β : Type} (f : α → β) (d : α) (l : List α) :
    (List.range l.length).map (fun p => f (l.getD p d)) = l.map f := by
  induction l with
  | nil => rfl
  | cons x xs ih =>
    rw [List.length_cons, List.range_succ_eq_map, List.map_cons, List.map_map,
      List.map_cons]
    refine congrArg₂ List.cons rfl ?_
    rw [← ih]
    apply List.map_congr_left
    intro p _
    rfl

lemma sum_range_exclude (g : Nat → Nat) (n pid : Nat) (hp : pid < n) :
    ((List.range n).map (fun p => if p = pid then 0 else g p)).sum + g pid
      = ((List.range n).map g).sum := by
  induction n with
  | zero => simp at hp
  | succ m ih =>
    rw [List.range_succ, List.map_append, List.sum_append, List.map_append,
      List.sum_append]
    by_cases hpm : pid = m
    · subst hpm
      have hmap : (List.range pid).map (fun p => if p = pid then 0 else g p)
          = (List.range pid).map g := by
        apply List.map_congr_left
        intro p hp2
        rw [List.mem_range] at hp2
        exact if_neg (by omega)
      rw [hmap]
      have hone : ([pid].map (fun p => if p = pid then 0 else g p)).sum = 0 := by
        simp
      have hone2 : ([pid].map g).sum = g pid := by
        simp
      omega
    · have hp2 : pid < m := by omega
      have hih := ih hp2
      have hone : ([m].map (fun p => if p = pid then 0 else g p)).sum = g m := by
        simp [if_neg (fun h : m = pid => hpm h.symm)]
      have hone2 : ([m].map g).sum = g m := by
        simp
      omega

lemma census_lt_of_own_card {s : GameState} (hInv : Inv s) {pid i : Nat} {card : Card}
    (hslot : s.slot_at pid i = some card) (hv : card.value ∈ card_values) :
    s.get_card_counts [pid] card.colour card.value
      < CARD_COUNTS card.colour card.value := by
  have hb := hInv.id_balance card.colour card.value hv
  have hpl : pid < s.hands.length := hands_lt_of_slot hslot
  have hp : pid < s.num_players := by
    have := hInv.hands_len
    omega
  have hconv : ((List.range s.num_players).map (fun p =>
      if p ∈ [pid] then 0 else idCountOpt (s.hands.getD p []) card.colour card.value)).sum
      = ((List.range s.num_players).map (fun p =>
        if p = pid then 0 else idCountOpt (s.hands.getD p []) card.colour card.value)).sum := by
    congr 1
    apply List.map_congr_left
    intro p _
    by_cases hpp : p = pid <;> simp [hpp]
  have hexc := sum_range_exclude
    (fun p => idCountOpt (s.hands.getD p []) card.colour card.value) s.num_players pid hp
  dsimp only at hexc
  have hfull : ((List.range s.num_players).map (fun p =>
      idCountOpt (s.hands.getD p []) card.colour card.value)).sum
      = (s.hands.map (fun h => idCountOpt h card.colour card.value)).sum := by
    rw [← hInv.hands_len]
    exact congrArg List.sum
      (map_range_getD (fun h => idCountOpt h card.colour card.value) [] s.hands)
  have hown : 1 ≤ idCountOpt (s.hands.getD pid []) card.colour card.value := by
    have hmem : some card ∈ s.hands.getD pid [] := mem_of_getD_some hslot
    have : 0 < (s.hands.getD pid []).countP (slot_is card.colour card.value) :=
      List.countP_pos_iff.mpr ⟨some card, hmem, by simp [slot_is, card_is]⟩
    unfold idCountOpt
    omega
  unfold GameState.get_card_counts
  unfold table_contrib at hb
  rw [hconv]
  omega

lemma draw_into_mistakes (s : GameState) (pid i : Nat) :
    (draw_into s pid i).mistakes_remaining = s.mistakes_remaining := by
  unfold draw_into
  split <;> rfl

lemma certain_play_sound_aux {s : GameState} (hInv : Inv s) {pid i : Nat}
    (hi : i ∈ s.get_card_ids_player_can_play_from_hints (s.get_usable_cards pid)
      (s.hints.getD pid []) (s.get_card_counts [pid])) :
    ∃ card s2, s.slot_at pid i = some card ∧ s.table card.colour + 1 = card.value ∧
      s.apply_action pid (.play i) = some (s2, none) ∧
      s2.mistakes_remaining = s.mistakes_remaining := by
  unfold GameState.get_card_ids_player_can_play_from_hints at hi
  rw [List.mem_filter] at hi
  obtain ⟨hiu, hall⟩ := hi
  obtain ⟨card, hslot2⟩ := mem_usable_idxs.mp hiu
  have hslot : s.slot_at pid i = some card := hslot2
  have hv : card.value ∈ card_values := hInv.hands_legal pid i card hslot
  have htruth : (s.hints.getD pid []).getD i initial_hints
      (card.colour, card.value) = true := hInv.truth pid i card hslot
  have hcensus := census_lt_of_own_card hInv hslot hv
  have hmem : (card.colour, card.value) ∈ possible_cards_from_hints
      ((s.hints.getD pid []).getD i initial_hints) (s.get_card_counts [pid]) := by
    unfold possible_cards_from_hints
    rw [List.mem_filter]
    refine ⟨mem_all_identities hv, ?_⟩
    rw [Bool.and_eq_true]
    exact ⟨htruth, by simpa using hcensus⟩
  have hreq := List.all_eq_true.mp hall _ hmem
  obtain ⟨c0, hcv, hlt⟩ := mem_required.mp (of_decide_eq_true hreq)
  obtain ⟨hc1, hc2⟩ := Prod.mk.inj hcv
  have hplay : s.table card.colour + 1 = card.value := by
    rw [hc1, hc2]
  have hplay2 : (remove_card s pid i).table card.colour + 1 = card.value := hplay
  have happly : s.apply_action pid (.play i)
      = some (draw_into { num_players := s.num_players
                          deck := s.deck
                          discard_pile := s.discard_pile
                          table := Function.update s.table card.colour
                            (s.table card.colour + 1)
                          hints_remaining := s.hints_remaining
                          mistakes_remaining := s.mistakes_remaining
                          hints := set_hint_slot s.hints pid i initial_hints
                          hands := set_hand_slot s.hands pid i none } pid i, none) := by
    rw [apply_action_play_eq hslot]
    dsimp only
    rw [if_pos hplay2]
    rfl
  refine ⟨card, _, hslot, hplay, happly, ?_⟩
  rw [draw_into_mistakes]

/-! ### Concrete states used by witnesses and counterexamples -/

/-- A concrete 50-card deck of the standard composition (a permutation
of what `create_deck()` builds).  Dealing pops from the end: player 0
receives the five 5s, player 1 receives `[w2, w2, g4, g4, r1]`. -/
def D : List Card :=
  [⟨.yellow, 1⟩, ⟨.green, 1⟩, ⟨.green, 1⟩, ⟨.blue, 1⟩, ⟨.blue, 1⟩, ⟨.blue, 1⟩,
   ⟨.white, 1⟩, ⟨.white, 1⟩, ⟨.white, 1⟩,
   ⟨.red, 2⟩, ⟨.red, 2⟩, ⟨.yellow, 2⟩, ⟨.yellow, 2⟩, ⟨.green, 2⟩, ⟨.green, 2⟩,
   ⟨.blue, 2⟩, ⟨.blue, 2⟩,
   ⟨.red, 4⟩, ⟨.red, 4⟩, ⟨.yellow, 4⟩, ⟨.yellow, 4⟩, ⟨.blue, 4⟩, ⟨.blue, 4⟩,
   ⟨.white, 4⟩, ⟨.white, 4⟩,
   ⟨.red, 3⟩, ⟨.red, 3⟩, ⟨.yellow, 3⟩, ⟨.yellow, 3⟩, ⟨.green, 3⟩, ⟨.green, 3⟩,
   ⟨.blue, 3⟩, ⟨.blue, 3⟩, ⟨.white, 3⟩, ⟨.white, 3⟩,
   ⟨.red, 1⟩, ⟨.red, 1⟩, ⟨.yellow, 1⟩, ⟨.yellow, 1⟩, ⟨.green, 1⟩,
   ⟨.red, 1⟩, ⟨.green, 4⟩, ⟨.green, 4⟩, ⟨.white, 2⟩, ⟨.white, 2⟩,
   ⟨.white, 5⟩, ⟨.blue, 5⟩, ⟨.green, 5⟩, ⟨.yellow, 5⟩, ⟨.red, 5⟩]

/-- The freshly dealt 5-player game on deck `D`. -/
def s0 : GameState := GameState.initial 5 D

lemma reach_s0 : Reachable s0 :=
  Reachable.init 5 D (by decide) (by omega)

/-- A truthful, maximal value-1 hint from player 0 to player 1 (slot 4
holds the only 1 in that hand). -/
def act1 : Action := .hint 1 [4] .value (.value 1)

/-- The state after `act1` is applied to `s0`. -/
def s1 : GameState :=
  match s0.apply_action 0 act1 with
  | some p => p.1
  | none => s0

lemma s1_eq : s0.apply_action 0 act1 = some (s1, none) := rfl

lemma reach_s1 : Reachable s1 :=
  Reachable.step 0 act1 reach_s0 (by decide) (by decide) s1_eq

/-- The state after player 1 discards slot 4 (the red 1) in `s0`: the
hint counter rises to 9. -/
def s7 : GameState :=
  match s0.apply_action 1 (.discard 4) with
  | some p => p.1
  | none => s0

lemma s7_eq : s0.apply_action 1 (.discard 4) = some (s7, none) := rfl

lemma reach_s7 : Reachable s7 :=
  Reachable.step 1 (.discard 4) reach_s0 (by decide) (by decide) s7_eq

/-- The outcome of player 0 misplaying slot 0 (the red 5) in `s0`. -/
def s0_play : GameState × Option GameOver :=
  match s0.apply_action 0 (.play 0) with
  | some p => p
  | none => (s0, none)

lemma s0_play_eq : s0.apply_action 0 (.play 0) = some s0_play := rfl

/-- A small hand-crafted state for the `GameOver`-ordering scenario:
player 0 holds the red 5, the table is empty, one mistake remains. -/
def s10 : GameState :=
  { num_players := 2
    deck := []
    discard_pile := []
    table := fun _ => 0
    hints_remaining := 3
    mistakes_remaining := 1
    hints := [List.replicate 5 initial_hints, List.replicate 5 initial_hints]
    hands := [[some ⟨.red, 5⟩, none, none, none, none],
              [none, none, none, none, none]] }

/-! ### Remaining helper lemmas about the action paths -/

lemma draw_into_discard_pile (s : GameState) (pid i : Nat) :
    (draw_into s pid i).discard_pile = s.discard_pile := by
  unfold draw_into
  split <;> rfl

lemma draw_into_hints_field (s : GameState) (pid i : Nat) :
    (draw_into s pid i).hints = s.hints := by
  unfold draw_into
  split <;> rfl

lemma draw_into_hints_remaining (s : GameState) (pid i : Nat) :
    (draw_into s pid i).hints_remaining = s.hints_remaining := by
  unfold draw_into
  split <;> rfl

lemma misplay_discard_mem {s s2 : GameState} {r : Option GameOver} {pid i : Nat}
    {card : Card} (hslot : s.slot_at pid i = some card)
    (hmis : s.table card.colour + 1 ≠ card.value)
    (happ : s.apply_action pid (.play i) = some (s2, r)) :
    s2.discard_pile = s.discard_pile ++ [card] := by
  have hmis2 : ¬(remove_card s pid i).table card.colour + 1 = card.value := hmis
  rw [apply_action_play_eq hslot] at happ
  dsimp only at happ
  rw [if_neg hmis2] at happ
  split at happ
  · have hs2 := congrArg Prod.fst (Option.some.inj happ)
    dsimp only at hs2
    rw [← hs2, put_card_fst]
    rfl
  · split at happ
    · have hs2 := congrArg Prod.fst (Option.some.inj happ)
      dsimp only at hs2
      rw [← hs2, put_card_fst]
      rfl
    · have hs2 := congrArg Prod.fst (Option.some.inj happ)
      dsimp only at hs2
      rw [← hs2, draw_into_discard_pile, put_card_fst]
      rfl

/-! ### Claim theorems -/

/-- C1.  Conservation of cards: every reachable state satisfies
`deck.size + non-empty hand slots + discard pile size + sum of table
values = 50`, and a misplayed `play` action keeps the sum at 50 with the
misplayed card ending up in the discard pile. -/
theorem hanabi_c1_conservation :
    (∀ s : GameState, Reachable s → conservation_sum s = 50) ∧
      (∀ (s s2 : GameState) (r : Option GameOver) (pid i : Nat) (card : Card),
        Reachable s → s.slot_at pid i = some card →
        s.table card.colour + 1 ≠ card.value →
        s.apply_action pid (.play i) = some (s2, r) →
        conservation_sum s2 = 50 ∧ card ∈ s2.discard_pile) := by
  constructor
  · intro s hs
    exact (inv_of_reachable hs).conserve
  · intro s s2 r pid i card hs hslot hmis happ
    have hInv := inv_of_reachable hs
    have hp : pid < s.num_players := by
      have h1 := hands_lt_of_slot hslot
      have h2 := hInv.hands_len
      omega
    have hs2 : Reachable s2 :=
      Reachable.step pid (.play i) hs hp (mem_available_play.mpr ⟨card, hslot⟩) happ
    refine ⟨(inv_of_reachable hs2).conserve, ?_⟩
    rw [misplay_discard_mem hslot hmis happ]
    exact List.mem_append_right _ (by simp)

/-- C1 witness: the fresh game `s0` conserves 50 cards, and player 0
misplaying the red 5 keeps the sum at 50 with the card discarded. -/
theorem hanabi_c1_conservation_witness :
    conservation_sum s0 = 50 ∧ conservation_sum s0_play.1 = 50
      ∧ (⟨.red, 5⟩ : Card) ∈ s0_play.1.discard_pile := by
  have h2 := hanabi_c1_conservation.2 s0 s0_play.1 s0_play.2 0 0 ⟨.red, 5⟩ reach_s0
    (by decide) (by decide) (by rw [s0_play_eq])
  exact ⟨hanabi_c1_conservation.1 s0 reach_s0, h2.1, h2.2⟩

/-- C2.  `apply_hint` computes `new[id] = old[id] AND NOT(match XOR
included)`, and an included slot never loses an entry that matches the
hinted colour (resp. rank). -/
theorem hanabi_c2_apply_hint_formula :
    (∀ (inc : Bool) (grid : Grid) (ht : HintType) (hv : HintValue) (cv : Colour × Nat),
        apply_hint inc grid ht hv cv
          = (grid cv && !(Bool.xor (hint_matches ht hv cv) inc))) ∧
      (∀ (grid : Grid) (hc : Colour) (v : Nat),
        apply_hint true grid .colour (.colour hc) (hc, v) = grid (hc, v)) ∧
      (∀ (grid : Grid) (c : Colour) (hvv : Nat),
        apply_hint true grid .value (.value hvv) (c, hvv) = grid (c, hvv)) := by
  refine ⟨?_, ?_, ?_⟩
  · intro inc grid ht hv cv
    unfold apply_hint
    cases hm : hint_matches ht hv cv <;> cases inc <;> simp
  · intro grid hc v
    unfold apply_hint hint_matches
    simp
  · intro grid c hvv
    unfold apply_hint hint_matches
    simp

/-- C3.  Certain-play soundness: in a reachable state, a slot yielded by
`get_card_ids_player_can_play_from_hints` (own hints, census excluding
only the own hand) holds a card whose rank is `table[colour] + 1`, and
playing it succeeds without touching `mistakes_remaining`. -/
theorem hanabi_c3_certain_play_sound :
    ∀ s : GameState, Reachable s → ∀ pid i : Nat,
      i ∈ s.get_card_ids_player_can_play_from_hints (s.get_usable_cards pid)
        (s.hints.getD pid []) (s.get_card_counts [pid]) →
      ∃ card s2, s.slot_at pid i = some card ∧
        s.table card.colour + 1 = card.value ∧
        s.apply_action pid (.play i) = some (s2, none) ∧
        s2.mistakes_remaining = s.mistakes_remaining :=
  fun _ hs _ _ hi => certain_play_sound_aux (inv_of_reachable hs) hi

/-- C3 witness: after the value-1 hint, player 1's slot 4 is certainly
playable and playing it does not cost a mistake. -/
theorem hanabi_c3_certain_play_sound_witness :
    (4 ∈ s1.get_card_ids_player_can_play_from_hints (s1.get_usable_cards 1)
        (s1.hints.getD 1 []) (s1.get_card_counts [1])) ∧
      ∃ card s2, s1.slot_at 1 4 = some card ∧
        s1.table card.colour + 1 = card.value ∧
        s1.apply_action 1 (.play 4) = some (s2, none) ∧
        s2.mistakes_remaining = s1.mistakes_remaining :=
  ⟨by decide, hanabi_c3_certain_play_sound s1 reach_s1 1 4 (by decide)⟩

/-- C4.  Truth preservation: in every reachable state, every non-empty
slot's hint grid still marks the slot's true identity as possible. -/
theorem hanabi_c4_truth_preservation :
    ∀ s : GameState, Reachable s → ∀ (pid i : Nat) (card : Card),
      s.slot_at pid i = some card →
      s.grid_at pid i (card.colour, card.value) = true :=
  fun _ hs pid i card h => (inv_of_reachable hs).truth pid i card h

/-- C4 witness: in `s1` (after a hint has narrowed player 1's grids)
slot 4's true identity, the red 1, is still marked possible. -/
theorem hanabi_c4_truth_preservation_witness :
    s1.slot_at 1 4 = some ⟨.red, 1⟩ ∧ s1.grid_at 1 4 (Colour.red, 1) = true :=
  ⟨by decide, hanabi_c4_truth_preservation s1 reach_s1 1 4 ⟨.red, 1⟩ (by decide)⟩

/-- C5.  The generator's self-hint bug: `get_available_actions` iterates
over all hands including the acting player's own, so the acting player
is offered a hint to themselves (contradicting the source's own comment
"give a hint to any other player"). -/
theorem hanabi_c5_self_hint_generated :
    Action.hint 0 [0] .colour (.colour .red) ∈ s0.get_available_actions 0 := by
  decide

/-- C6.  Last-copy game over: a discard (or a misplay routed through
`put_card_on_discard_pile`) raises the last-copy `GameOver` exactly when
the card's rank exceeds `table[colour]` and the discarded-copy count
after the discard reaches the total copy count (3/2/2/2/1 for ranks
1..5); otherwise the discard path raises nothing. -/
theorem hanabi_c6_last_copy :
    (∀ c : Colour, CARD_COUNTS c 1 = 3 ∧ CARD_COUNTS c 2 = 2 ∧ CARD_COUNTS c 3 = 2
      ∧ CARD_COUNTS c 4 = 2 ∧ CARD_COUNTS c 5 = 1) ∧
      (∀ (s : GameState) (pid i : Nat) (card : Card),
        s.slot_at pid i = some card →
        idCount s.discard_pile card.colour card.value + 1
          ≤ CARD_COUNTS card.colour card.value →
        (∃ s2, s.apply_action pid (.discard i)
            = some (s2, if s.table card.colour < card.value
                  ∧ idCount s.discard_pile card.colour card.value + 1
                    = CARD_COUNTS card.colour card.value
                then some (.lastCopyDiscarded card) else none)) ∧
          (s.table card.colour + 1 ≠ card.value →
            ∃ s2 r, s.apply_action pid (.play i) = some (s2, r) ∧
              (r = some (.lastCopyDiscarded card) ↔
                s.table card.colour < card.value ∧
                  idCount s.discard_pile card.colour card.value + 1
                    = CARD_COUNTS card.colour card.value))) := by
  constructor
  · intro c
    exact ⟨rfl, rfl, rfl, rfl, rfl⟩
  · intro s pid i card hslot hbound
    constructor
    · obtain ⟨ps, pr, hpc⟩ : ∃ ps pr,
          (remove_card s pid i).put_card_on_discard_pile card = (ps, pr) :=
        ⟨_, _, rfl⟩
      have hsnd : pr = if card.value ≤ s.table card.colour
            ∨ idCount s.discard_pile card.colour card.value + 1
              < CARD_COUNTS card.colour card.value then none
          else some (.lastCopyDiscarded card) := by
        have h := put_card_snd (remove_card s pid i) card
        rw [hpc] at h
        exact h
      have happc : s.apply_action pid (.discard i)
          = (if pr.isSome then some (ps, pr)
             else some (draw_into { ps with
               hints_remaining := ps.hints_remaining + 1 } pid i, none)) := by
        rw [apply_action_discard_eq hslot]
        dsimp only
        rw [hpc]
      by_cases hcond : card.value ≤ s.table card.colour
          ∨ idCount s.discard_pile card.colour card.value + 1
            < CARD_COUNTS card.colour card.value
      · rw [if_pos hcond] at hsnd
        subst hsnd
        rw [if_neg (by simp)] at happc
        rw [if_neg (show ¬(s.table card.colour < card.value
          ∧ idCount s.discard_pile card.colour card.value + 1
            = CARD_COUNTS card.colour card.value) by omega)]
        exact ⟨_, happc⟩
      · rw [if_neg hcond] at hsnd
        subst hsnd
        rw [if_pos (by simp)] at happc
        rw [if_pos (show s.table card.colour < card.value
          ∧ idCount s.discard_pile card.colour card.value + 1
            = CARD_COUNTS card.colour card.value by omega)]
        exact ⟨_, happc⟩
    · intro hmis
      have hmis2 : ¬(remove_card s pid i).table card.colour + 1 = card.value := hmis
      obtain ⟨ps, pr, hpc⟩ : ∃ ps pr,
          ({ remove_card s pid i with
              mistakes_remaining := (remove_card s pid i).mistakes_remaining - 1
            } : GameState).put_card_on_discard_pile card = (ps, pr) :=
        ⟨_, _, rfl⟩
      have hsnd : pr = if card.value ≤ s.table card.colour
            ∨ idCount s.discard_pile card.colour card.value + 1
              < CARD_COUNTS card.colour card.value then none
          else some (.lastCopyDiscarded card) := by
        have h := put_card_snd ({ remove_card s pid i with
          mistakes_remaining := (remove_card s pid i).mistakes_remaining - 1
          } : GameState) card
        rw [hpc] at h
        exact h
      have happc : s.apply_action pid (.play i)
          = (if pr.isSome then some (ps, pr)
             else if ps.mistakes_remaining = 0 then some (ps, some .ranOutOfMistakes)
             else some (draw_into ps pid i, none)) := by
        rw [apply_action_play_eq hslot]
        dsimp only
        rw [if_neg hmis2, hpc]
      by_cases hcond : card.value ≤ s.table card.colour
          ∨ idCount s.discard_pile card.colour card.value + 1
            < CARD_COUNTS card.colour card.value
      · rw [if_pos hcond] at hsnd
        subst hsnd
        rw [if_neg (by simp)] at happc
        by_cases hmz : ps.mistakes_remaining = 0
        · rw [if_pos hmz] at happc
          refine ⟨ps, some .ranOutOfMistakes, happc, ?_, ?_⟩
          · intro h
            exact absurd (Option.some.inj h) (by simp)
          · intro hC
            exact absurd hC (by omega)
        · rw [if_neg hmz] at happc
          refine ⟨_, none, happc, ?_, ?_⟩
          · intro h
            exact absurd h (by simp)
          · intro hC
            exact absurd hC (by omega)
      · rw [if_neg hcond] at hsnd
        subst hsnd
        rw [if_pos (by simp)] at happc
        refine ⟨ps, some (.lastCopyDiscarded card), happc, fun _ => by omega, fun _ => rfl⟩

/-- C6 witness: in `s10` discarding the lone red 5 (table red still 0,
no other copies anywhere) raises the last-copy `GameOver`. -/
theorem hanabi_c6_last_copy_witness :
    ∃ s2, s10.apply_action 0 (.discard 0)
      = some (s2, some (.lastCopyDiscarded ⟨.red, 5⟩)) := by
  obtain ⟨s2, hs2⟩ :=
    (hanabi_c6_last_copy.2 s10 0 0 ⟨.red, 5⟩ (by decide) (by decide)).1
  rw [if_pos (by decide)] at hs2
  exact ⟨s2, hs2⟩

/-- C7 counterexample: one legal discard from the fresh game `s0` makes
`hints_remaining` equal 9, so the claimed upper bound of 8 fails on a
reachable state. -/
theorem hanabi_c7_hint_cap_counterexample :
    Reachable s7 ∧ s7.hints_remaining = 9 ∧ ¬s7.hints_remaining ≤ 8 :=
  ⟨reach_s7, by decide, by decide⟩

/-- C7 amended: in every reachable state `0 ≤ hints_remaining`; a
successful discard increments the counter (with no cap, so it can
exceed 8), a discard that raises the last-copy `GameOver` leaves it
unchanged, and a hint decrements it. -/
theorem hanabi_c7_hint_counter_amended :
    (∀ s : GameState, Reachable s → 0 ≤ s.hints_remaining) ∧
      (∀ (s s2 : GameState) (r : Option GameOver) (pid i : Nat),
        s.apply_action pid (.discard i) = some (s2, r) →
        (r = none → s2.hints_remaining = s.hints_remaining + 1) ∧
          (r ≠ none → s2.hints_remaining = s.hints_remaining)) ∧
      (∀ (s s2 : GameState) (r : Option GameOver) (pid other : Nat)
        (ids : List Nat) (ht : HintType) (hv : HintValue),
        s.apply_action pid (.hint other ids ht hv) = some (s2, r) →
        s2.hints_remaining = s.hints_remaining - 1) := by
  refine ⟨?_, ?_, ?_⟩
  · intro s hs
    exact (inv_of_reachable hs).hints_nonneg
  · intro s s2 r pid i happ
    cases hslot : s.slot_at pid i with
    | none =>
      unfold GameState.apply_action at happ
      dsimp only at happ
      rw [hslot] at happ
      exact absurd happ (by simp)
    | some card =>
      obtain ⟨ps, pr, hpc⟩ : ∃ ps pr,
          (remove_card s pid i).put_card_on_discard_pile card = (ps, pr) :=
        ⟨_, _, rfl⟩
      have hps : ps.hints_remaining = s.hints_remaining := by
        have h := put_card_fst (remove_card s pid i) card
        rw [hpc] at h
        rw [show ps = (ps, pr).1 from rfl, h]
        rfl
      rw [apply_action_discard_eq hslot] at happ
      dsimp only at happ
      rw [hpc] at happ
      dsimp only at happ
      cases pr with
      | some reason =>
        rw [if_pos (by simp)] at happ
        obtain ⟨h1, h2⟩ := Prod.mk.inj (Option.some.inj happ)
        constructor
        · intro hr
          rw [← h2] at hr
          exact absurd hr (by simp)
        · intro _
          rw [← h1, hps]
      | none =>
        rw [if_neg (by simp)] at happ
        obtain ⟨h1, h2⟩ := Prod.mk.inj (Option.some.inj happ)
        constructor
        · intro _
          rw [← h1, draw_into_hints_remaining]
          dsimp only
          rw [hps]
        · intro hr
          exact absurd h2.symm hr
  · intro s s2 r pid other ids ht hv happ
    unfold GameState.apply_action at happ
    dsimp only at happ
    split at happ
    · have h1 := congrArg Prod.fst (Option.some.inj happ)
      dsimp only at h1
      rw [← h1]
    · exact absurd happ (by simp)

/-- C7 amended witness: `s0` has a non-negative counter, the discard
producing `s7` increments it (to 9), and the hint producing `s1`
decrements it. -/
theorem hanabi_c7_hint_counter_amended_witness :
    0 ≤ s0.hints_remaining ∧ s7.hints_remaining = s0.hints_remaining + 1
      ∧ s1.hints_remaining = s0.hints_remaining - 1 :=
  ⟨hanabi_c7_hint_counter_amended.1 s0 reach_s0,
   (hanabi_c7_hint_counter_amended.2.1 s0 s7 none 1 4 s7_eq).1 rfl,
   hanabi_c7_hint_counter_amended.2.2 s0 s1 none 0 1 [4] .value (.value 1) s1_eq⟩

lemma apply_hint_monotone (inc : Bool) (grid : Grid) (ht : HintType) (hv : HintValue)
    (cv : Colour × Nat) : apply_hint inc grid ht hv cv = true → grid cv = true := by
  intro h
  unfold apply_hint at h
  split at h
  · exact absurd h (by simp)
  · exact h

/-- C8.  Hint monotonicity and reset: `apply_hint` never flips an entry
from false to true (also through a whole hint action), and a discard or
play resets the affected slot's grid to all-true, whether or not a
replacement is drawn. -/
theorem hanabi_c8_monotonic_reset :
    (∀ (inc : Bool) (grid : Grid) (ht : HintType) (hv : HintValue) (cv : Colour × Nat),
        apply_hint inc grid ht hv cv = true → grid cv = true) ∧
      (∀ (s s2 : GameState) (r : Option GameOver) (pid other : Nat) (ids : List Nat)
          (ht : HintType) (hv : HintValue) (p j : Nat) (cv : Colour × Nat),
        s.apply_action pid (.hint other ids ht hv) = some (s2, r) → j < 5 →
        s2.grid_at p j cv = true → s.grid_at p j cv = true) ∧
      (∀ (s s2 : GameState) (r : Option GameOver) (pid i : Nat),
        pid < s.hints.length → i < (s.hints.getD pid []).length →
        s.apply_action pid (.discard i) = some (s2, r) →
        s2.grid_at pid i = initial_hints) ∧
      (∀ (s s2 : GameState) (r : Option GameOver) (pid i : Nat),
        pid < s.hints.length → i < (s.hints.getD pid []).length →
        s.apply_action pid (.play i) = some (s2, r) →
        s2.grid_at pid i = initial_hints) := by
  refine ⟨apply_hint_monotone, ?_, ?_, ?_⟩
  · intro s s2 r pid other ids ht hv p j cv happ hj hgrid
    unfold GameState.apply_action at happ
    dsimp only at happ
    split at happ
    · rename_i hcond
      obtain ⟨h1, -⟩ := Prod.mk.inj (Option.some.inj happ)
      rw [← h1] at hgrid
      show ((s.hints.getD p []).getD j initial_hints) cv = true
      by_cases hpo : p = other
      · subst hpo
        have hgrid2 : ((s.hints.set p ((List.range 5).map (fun card_id =>
            apply_hint (decide (card_id ∈ ids))
              ((s.hints.getD p []).getD card_id initial_hints) ht hv))).getD p
              []).getD j initial_hints cv = true := hgrid
        rw [getD_set_self _ _ _ _ hcond.1, getD_range_map _ _ hj] at hgrid2
        exact apply_hint_monotone _ _ _ _ _ hgrid2
      · have hgrid2 : ((s.hints.set other ((List.range 5).map (fun card_id =>
            apply_hint (decide (card_id ∈ ids))
              ((s.hints.getD other []).getD card_id initial_hints) ht hv))).getD p
              []).getD j initial_hints cv = true := hgrid
        rw [getD_set_ne _ _ _ (fun h => hpo h.symm)] at hgrid2
        exact hgrid2
    · exact absurd happ (by simp)
  · intro s s2 r pid i hpl hil happ
    cases hslot : s.slot_at pid i with
    | none =>
      unfold GameState.apply_action at happ
      dsimp only at happ
      rw [hslot] at happ
      exact absurd happ (by simp)
    | some card =>
      rw [apply_action_discard_eq hslot] at happ
      dsimp only at happ
      split at happ
      · have h1 := congrArg Prod.fst (Option.some.inj happ)
        dsimp only at h1
        rw [← h1, put_card_fst]
        show ((set_hint_slot s.hints pid i initial_hints).getD pid []).getD i
          initial_hints = initial_hints
        rw [getD2_set_hint s.hints pid i initial_hints hpl hil, if_pos ⟨rfl, rfl⟩]
      · have h1 := congrArg Prod.fst (Option.some.inj happ)
        dsimp only at h1
        rw [← h1]
        unfold GameState.grid_at
        rw [draw_into_hints_field, put_card_fst]
        show ((set_hint_slot s.hints pid i initial_hints).getD pid []).getD i
          initial_hints = initial_hints
        rw [getD2_set_hint s.hints pid i initial_hints hpl hil, if_pos ⟨rfl, rfl⟩]
  · intro s s2 r pid i hpl hil happ
    cases hslot : s.slot_at pid i with
    | none =>
      unfold GameState.apply_action at happ
      dsimp only at happ
      rw [hslot] at happ
      exact absurd happ (by simp)
    | some card =>
      rw [apply_action_play_eq hslot] at happ
      dsimp only at happ
      split at happ
      · obtain ⟨h1, -⟩ := Prod.mk.inj (Option.some.inj happ)
        rw [← h1]
        unfold GameState.grid_at
        rw [draw_into_hints_field]
        show ((set_hint_slot s.hints pid i initial_hints).getD pid []).getD i
          initial_hints = initial_hints
        rw [getD2_set_hint s.hints pid i initial_hints hpl hil, if_pos ⟨rfl, rfl⟩]
      · split at happ
        · have h1 := congrArg Prod.fst (Option.some.inj happ)
          dsimp only at h1
          rw [← h1, put_card_fst]
          show ((set_hint_slot s.hints pid i initial_hints).getD pid []).getD i
            initial_hints = initial_hints
          rw [getD2_set_hint s.hints pid i initial_hints hpl hil, if_pos ⟨rfl, rfl⟩]
        · split at happ
          · obtain ⟨h1, -⟩ := Prod.mk.inj (Option.some.inj happ)
            rw [← h1, put_card_fst]
            show ((set_hint_slot s.hints pid i initial_hints).getD pid []).getD i
              initial_hints = initial_hints
            rw [getD2_set_hint s.hints pid i initial_hints hpl hil, if_pos ⟨rfl, rfl⟩]
          · obtain ⟨h1, -⟩ := Prod.mk.inj (Option.some.inj happ)
            rw [← h1]
            unfold GameState.grid_at
            rw [draw_into_hints_field, put_card_fst]
            show ((set_hint_slot s.hints pid i initial_hints).getD pid []).getD i
              initial_hints = initial_hints
            rw [getD2_set_hint s.hints pid i initial_hints hpl hil, if_pos ⟨rfl, rfl⟩]

/-- C8 witness: `apply_hint` keeps a true entry true on the fresh grid;
the value-1 hint to player 1 preserves monotonicity at slot 0; the
discard producing `s7` and the misplay in `s0_play` reset the affected
grids to all-true. -/
theorem hanabi_c8_monotonic_reset_witness :
    (initial_hints (Colour.red, 1) = true) ∧
      (s0.grid_at 0 0 (Colour.red, 1) = true) ∧
      (s7.grid_at 1 4 = initial_hints) ∧
      (s0_play.1.grid_at 0 0 = initial_hints) := by
  refine ⟨?_, ?_, ?_, ?_⟩
  · exact hanabi_c8_monotonic_reset.1 true initial_hints .colour (.colour .red)
      (.red, 1) rfl
  · exact hanabi_c8_monotonic_reset.2.1 s0 s1 none 0 1 [4] .value (.value 1) 0 0
      (.red, 1) s1_eq (by omega) (by decide)
  · exact hanabi_c8_monotonic_reset.2.2.1 s0 s7 none 1 4 (by decide) (by decide) s7_eq
  · exact hanabi_c8_monotonic_reset.2.2.2 s0 s0_play.1 s0_play.2 0 0 (by decide)
      (by decide) (by rw [s0_play_eq])

/-- C10.  Terminal-check ordering and partial mutation: a misplay that
discards the last copy while dropping `mistakes_remaining` to 0 raises
the last-copy reason (not "ran out of mistakes"), and on every
`GameOver`-raising path the already performed mutations persist — slot
emptied, grid reset, card appended to the discard pile — while no
replacement is drawn and, on the discard path, `hints_remaining` is not
incremented. -/
theorem hanabi_c10_gameover_ordering :
    (∀ (s : GameState) (pid i : Nat) (card : Card),
        s.slot_at pid i = some card →
        s.table card.colour + 1 ≠ card.value →
        s.table card.colour < card.value →
        idCount s.discard_pile card.colour card.value + 1
          = CARD_COUNTS card.colour card.value →
        s.mistakes_remaining = 1 →
        pid < s.hints.length → i < (s.hints.getD pid []).length →
        ∃ s2, s.apply_action pid (.play i)
            = some (s2, some (.lastCopyDiscarded card)) ∧
          s2.deck = s.deck ∧ s2.hints_remaining = s.hints_remaining ∧
          s2.mistakes_remaining = 0 ∧ s2.slot_at pid i = none ∧
          s2.grid_at pid i = initial_hints ∧
          s2.discard_pile = s.discard_pile ++ [card]) ∧
      (∀ (s : GameState) (pid i : Nat) (card : Card),
        s.slot_at pid i = some card →
        s.table card.colour < card.value →
        idCount s.discard_pile card.colour card.value + 1
          = CARD_COUNTS card.colour card.value →
        pid < s.hints.length → i < (s.hints.getD pid []).length →
        ∃ s2, s.apply_action pid (.discard i)
            = some (s2, some (.lastCopyDiscarded card)) ∧
          s2.deck = s.deck ∧ s2.hints_remaining = s.hints_remaining ∧
          s2.slot_at pid i = none ∧ s2.grid_at pid i = initial_hints ∧
          s2.discard_pile = s.discard_pile ++ [card]) ∧
      (∀ (s : GameState) (pid i : Nat) (card : Card),
        s.slot_at pid i = some card →
        s.table card.colour + 1 ≠ card.value →
        (card.value ≤ s.table card.colour
          ∨ idCount s.discard_pile card.colour card.value + 1
            < CARD_COUNTS card.colour card.value) →
        s.mistakes_remaining = 1 →
        pid < s.hints.length → i < (s.hints.getD pid []).length →
        ∃ s2, s.apply_action pid (.play i) = some (s2, some .ranOutOfMistakes) ∧
          s2.deck = s.deck ∧ s2.hints_remaining = s.hints_remaining ∧
          s2.mistakes_remaining = 0 ∧ s2.slot_at pid i = none ∧
          s2.grid_at pid i = initial_hints ∧
          s2.discard_pile = s.discard_pile ++ [card]) := by
  refine ⟨?_, ?_, ?_⟩
  · intro s pid i card hslot hmis hgt hcnt hmr hpl hil
    have hpl2 : pid < s.hands.length := hands_lt_of_slot hslot
    have hil2 : i < (s.hands.getD pid []).length := lt_of_getD_some hslot
    have hmis2 : ¬(remove_card s pid i).table card.colour + 1 = card.value := hmis
    obtain ⟨ps, pr, hpc⟩ : ∃ ps pr,
        ({ remove_card s pid i with
            mistakes_remaining := (remove_card s pid i).mistakes_remaining - 1
          } : GameState).put_card_on_discard_pile card = (ps, pr) :=
      ⟨_, _, rfl⟩
    have hsnd : pr = if card.value ≤ s.table card.colour
          ∨ idCount s.discard_pile card.colour card.value + 1
            < CARD_COUNTS card.colour card.value then none
        else some (.lastCopyDiscarded card) := by
      have h := put_card_snd ({ remove_card s pid i with
        mistakes_remaining := (remove_card s pid i).mistakes_remaining - 1
        } : GameState) card
      rw [hpc] at h
      exact h
    rw [if_neg (by omega)] at hsnd
    subst hsnd
    have hfst : ps = { num_players := s.num_players
                       deck := s.deck
                       discard_pile := s.discard_pile ++ [card]
                       table := s.table
                       hints_remaining := s.hints_remaining
                       mistakes_remaining := s.mistakes_remaining - 1
                       hints := set_hint_slot s.hints pid i initial_hints
                       hands := set_hand_slot s.hands pid i none } := by
      have h := put_card_fst ({ remove_card s pid i with
        mistakes_remaining := (remove_card s pid i).mistakes_remaining - 1
        } : GameState) card
      rw [hpc] at h
      exact h
    have happc : s.apply_action pid (.play i)
        = some (ps, some (.lastCopyDiscarded card)) := by
      rw [apply_action_play_eq hslot]
      dsimp only
      rw [if_neg hmis2, hpc]
      dsimp only
      rw [if_pos (by simp)]
    refine ⟨ps, happc, ?_, ?_, ?_, ?_, ?_, ?_⟩
    · rw [hfst]
    · rw [hfst]
    · rw [hfst]
      show s.mistakes_remaining - 1 = 0
      omega
    · rw [hfst]
      show ((set_hand_slot s.hands pid i none).getD pid []).getD i none = none
      rw [getD2_set_hand s.hands pid i none hpl2 hil2, if_pos ⟨rfl, rfl⟩]
    · rw [hfst]
      show ((set_hint_slot s.hints pid i initial_hints).getD pid []).getD i
        initial_hints = initial_hints
      rw [getD2_set_hint s.hints pid i initial_hints hpl hil, if_pos ⟨rfl, rfl⟩]
    · rw [hfst]
  · intro s pid i card hslot hgt hcnt hpl hil
    have hpl2 : pid < s.hands.length := hands_lt_of_slot hslot
    have hil2 : i < (s.hands.getD pid []).length := lt_of_getD_some hslot
    obtain ⟨ps, pr, hpc⟩ : ∃ ps pr,
        (remove_card s pid i).put_card_on_discard_pile card = (ps, pr) :=
      ⟨_, _, rfl⟩
    have hsnd : pr = if card.value ≤ s.table card.colour
          ∨ idCount s.discard_pile card.colour card.value + 1
            < CARD_COUNTS card.colour card.value then none
        else some (.lastCopyDiscarded card) := by
      have h := put_card_snd (remove_card s pid i) card
      rw [hpc] at h
      exact h
    rw [if_neg (by omega)] at hsnd
    subst hsnd
    have hfst : ps = { num_players := s.num_players
                       deck := s.deck
                       discard_pile := s.discard_pile ++ [card]
                       table := s.table
                       hints_remaining := s.hints_remaining
                       mistakes_remaining := s.mistakes_remaining
                       hints := set_hint_slot s.hints pid i initial_hints
                       hands := set_hand_slot s.hands pid i none } := by
      have h := put_card_fst (remove_card s pid i) card
      rw [hpc] at h
      exact h
    have happc : s.apply_action pid (.discard i)
        = some (ps, some (.lastCopyDiscarded card)) := by
      rw [apply_action_discard_eq hslot]
      dsimp only
      rw [hpc]
      dsimp only
      rw [if_pos (by simp)]
    refine ⟨ps, happc, ?_, ?_, ?_, ?_, ?_⟩
    · rw [hfst]
    · rw [hfst]
    · rw [hfst]
      show ((set_hand_slot s.hands pid i none).getD pid []).getD i none = none
      rw [getD2_set_hand s.hands pid i none hpl2 hil2, if_pos ⟨rfl, rfl⟩]
    · rw [hfst]
      show ((set_hint_slot s.hints pid i initial_hints).getD pid []).getD i
        initial_hints = initial_hints
      rw [getD2_set_hint s.hints pid i initial_hints hpl hil, if_pos ⟨rfl, rfl⟩]
    · rw [hfst]
  · intro s pid i card hslot hmis hnolast hmr hpl hil
    have hpl2 : pid < s.hands.length := hands_lt_of_slot hslot
    have hil2 : i < (s.hands.getD pid []).length := lt_of_getD_some hslot
    have hmis2 : ¬(remove_card s pid i).table card.colour + 1 = card.value := hmis
    obtain ⟨ps, pr, hpc⟩ : ∃ ps pr,
        ({ remove_card s pid i with
            mistakes_remaining := (remove_card s pid i).mistakes_remaining - 1
          } : GameState).put_card_on_discard_pile card = (ps, pr) :=
      ⟨_, _, rfl⟩
    have hsnd : pr = if card.value ≤ s.table card.colour
          ∨ idCount s.discard_pile card.colour card.value + 1
            < CARD_COUNTS card.colour card.value then none
        else some (.lastCopyDiscarded card) := by
      have h := put_card_snd ({ remove_card s pid i with
        mistakes_remaining := (remove_card s pid i).mistakes_remaining - 1
        } : GameState) card
      rw [hpc] at h
      exact h
    rw [if_pos hnolast] at hsnd
    subst hsnd
    have hfst : ps = { num_players := s.num_players
                       deck := s.deck
                       discard_pile := s.discard_pile ++ [card]
                       table := s.table
                       hints_remaining := s.hints_remaining
                       mistakes_remaining := s.mistakes_remaining - 1
                       hints := set_hint_slot s.hints pid i initial_hints
                       hands := set_hand_slot s.hands pid i none } := by
      have h := put_card_fst ({ remove_card s pid i with
        mistakes_remaining := (remove_card s pid i).mistakes_remaining - 1
        } : GameState) card
      rw [hpc] at h
      exact h
    have hmz : ps.mistakes_remaining = 0 := by
      rw [hfst]
      show s.mistakes_remaining - 1 = 0
      omega
    have happc : s.apply_action pid (.play i)
        = some (ps, some .ranOutOfMistakes) := by
      rw [apply_action_play_eq hslot]
      dsimp only
      rw [if_neg hmis2, hpc]
      dsimp only
      rw [if_neg (by simp), if_pos hmz]
    refine ⟨ps, happc, ?_, ?_, hmz, ?_, ?_, ?_⟩
    · rw [hfst]
    · rw [hfst]
    · rw [hfst]
      show ((set_hand_slot s.hands pid i none).getD pid []).getD i none = none
      rw [getD2_set_hand s.hands pid i none hpl2 hil2, if_pos ⟨rfl, rfl⟩]
    · rw [hfst]
      show ((set_hint_slot s.hints pid i initial_hints).getD pid []).getD i
        initial_hints = initial_hints
      rw [getD2_set_hint s.hints pid i initial_hints hpl hil, if_pos ⟨rfl, rfl⟩]
    · rw [hfst]

/-- C10 witness: in `s10` (mistakes_remaining 1, red 5 in hand, table
empty) the misplay raises the last-copy reason with all mutations kept
and no draw. -/
theorem hanabi_c10_gameover_ordering_witness :
    ∃ s2, s10.apply_action 0 (.play 0)
        = some (s2, some (.lastCopyDiscarded ⟨.red, 5⟩)) ∧
      s2.deck = s10.deck ∧ s2.hints_remaining = s10.hints_remaining ∧
      s2.mistakes_remaining = 0 ∧ s2.slot_at 0 0 = none ∧
      s2.grid_at 0 0 = initial_hints ∧
      s2.discard_pile = s10.discard_pile ++ [⟨.red, 5⟩] :=
  hanabi_c10_gameover_ordering.1 s10 0 0 ⟨.red, 5⟩ (by decide) (by decide) (by decide)
    (by decide) (by decide) (by decide) (by decide)

/-! ### C9: hint-selection priority in the AI -/

lemma argmax_step_isSome (acc : Option (HintValue × List Nat)) (p : HintValue × List Nat) :
    (argmax_step acc p).isSome := by
  cases acc with
  | none => rfl
  | some q =>
    show (if q.2.length < p.2.length then some p else some q).isSome = true
    split <;> rfl

lemma foldl_argmax_isSome (l : List (HintValue × List Nat)) :
    ∀ (acc : Option (HintValue × List Nat)), acc.isSome = true ∨ l ≠ [] →
      (List.foldl argmax_step acc l).isSome = true := by
  induction l with
  | nil =>
    intro acc h
    rcases h with h | h
    · exact h
    · exact absurd rfl h
  | cons p rest ih =>
    intro acc _
    rw [List.foldl_cons]
    exact ih (argmax_step acc p) (Or.inl (argmax_step_isSome acc p))

lemma foldl_argmax_mem (l0 : List (HintValue × List Nat)) :
    ∀ (l : List (HintValue × List Nat)) (acc : Option (HintValue × List Nat)),
      (∀ q, acc = some q → q ∈ l0) → (∀ p ∈ l, p ∈ l0) →
      ∀ q, List.foldl argmax_step acc l = some q → q ∈ l0 := by
  intro l
  induction l with
  | nil =>
    intro acc hacc _ q hq
    exact hacc q hq
  | cons p rest ih =>
    intro acc hacc hsub q hq
    rw [List.foldl_cons] at hq
    refine ih (argmax_step acc p) ?_ (fun r hr => hsub r (List.mem_cons_of_mem _ hr)) q hq
    intro r hr
    cases acc with
    | none =>
      have hr2 : some p = some r := hr
      exact (Option.some.inj hr2) ▸ hsub p (List.mem_cons_self _ _)
    | some q0 =>
      have hr2 : (if q0.2.length < p.2.length then some p else some q0) = some r := hr
      split at hr2
      · exact (Option.some.inj hr2) ▸ hsub p (List.mem_cons_self _ _)
      · exact (Option.some.inj hr2) ▸ hacc q0 rfl

lemma argmax_key_mem (l : List (HintValue × List Nat)) (hne : l ≠ []) :
    ∃ k, argmax_key l = some k ∧ k ∈ l.map Prod.fst := by
  obtain ⟨q, hq⟩ := Option.isSome_iff_exists.mp (foldl_argmax_isSome l none (Or.inr hne))
  have hmem : q ∈ l :=
    foldl_argmax_mem l l none (fun r hr => Option.noConfusion hr) (fun p hp => hp) q hq
  refine ⟨q.1, ?_, List.mem_map.mpr ⟨q, hmem, rfl⟩⟩
  unfold argmax_key
  rw [hq]
  rfl

lemma best_key_mem (good needD : List (HintValue × List Nat)) (hneed : needD ≠ [])
    (hsub : ∀ p ∈ good, p.1 ∈ needD.map Prod.fst) :
    ∃ best, best_key good needD = some best ∧ best ∈ needD.map Prod.fst := by
  cases good with
  | nil =>
    obtain ⟨k, hk, hmem⟩ := argmax_key_mem needD hneed
    refine ⟨k, ?_, hmem⟩
    unfold best_key
    rw [if_neg (by simp)]
    exact hk
  | cons p rest =>
    refine ⟨p.1, ?_, hsub p (List.mem_cons_self _ _)⟩
    unfold best_key
    rw [if_pos (by simp)]
    rfl

lemma good_discard_sub (s : GameState) (pid other : Nat)
    (needD : List (HintValue × List Nat)) :
    ∀ p ∈ good_discard_hints s pid other needD, p.1 ∈ needD.map Prod.fst := by
  intro p hp
  unfold good_discard_hints at hp
  rw [List.mem_filterMap] at hp
  obtain ⟨q, hq, hfq⟩ := hp
  dsimp only at hfq
  split at hfq
  · cases Option.some.inj hfq
    exact List.mem_map.mpr ⟨q, hq, rfl⟩
  · exact Option.noConfusion hfq

lemma ai_hint_loop_cons (s : GameState) (pid : Nat) (actions : List Action)
    (i : Nat) (rest : List Nat) :
    ai_hint_loop s pid actions (i :: rest)
      = match try_hint_for_player s pid actions ((i + pid) % s.num_players) with
        | some c => c
        | none => ai_hint_loop s pid actions rest := rfl

set_option maxRecDepth 200000 in
/-- **C9 counterexample.** In the fresh 5-player game on deck `D`, player
0's AI turn reaches the hint loop and examines player 1, for whom both
play-coverage and discard-coverage hints are needed; the chosen hint is
`value 2` on slots `[0, 1]`, a key that covers no playable slot (the only
playable slot of player 1 is slot 4, which is not among the hinted ids),
so discardable-coverage, not playable-coverage, won. -/
theorem hanabi_c9_counterexample :
    s0.select_action_ai none 0 (s0.get_available_actions 0)
        = .chosen (Action.hint 1 [0, 1] .value (.value 2))
      ∧ cover_needed s0 1 (s0.get_card_ids_player_can_play 1) ≠ []
      ∧ cover_needed s0 1 (s0.get_card_ids_player_can_discard 1) ≠ []
      ∧ HintValue.value 2
          ∉ (cover_needed s0 1 (s0.get_card_ids_player_can_play 1)).map Prod.fst
      ∧ s0.get_card_ids_player_can_play 1 = [4]
      ∧ (4 : Nat) ∉ [0, 1] := by
  decide

/-- **C9 (amended).** Discardable-coverage takes priority over
playable-coverage: in the hint branch of `select_action_ai` (no certain
play, no certain discard, hints remaining), if for the first examined
other player `(1 + pid) % num_players` every coverable card is covered
and discard-coverage hints are needed, the AI commits to a hint key drawn
from the discard-coverage dict — even when play-coverage hints are needed
as well. -/
theorem hanabi_c9_discard_priority (s : GameState) (last : Option Action)
    (pid : Nat) (actions : List Action)
    (h1 : s.get_card_ids_player_can_play_from_hints (s.get_usable_cards pid)
      (s.hints.getD pid []) (s.get_card_counts [pid]) = [])
    (h2 : s.get_card_ids_player_can_discard_from_hints (s.get_usable_cards pid)
      (s.hints.getD pid []) (s.get_card_counts [pid]) = [])
    (h3 : ¬s.hints_remaining = 0)
    (hn : 2 ≤ s.num_players)
    (hdont : ((s.get_card_ids_player_can_play ((1 + pid) % s.num_players)
        ++ s.get_card_ids_player_can_discard ((1 + pid) % s.num_players)).filter
      (fun i => decide (¬(i ∈ needed_ids (cover_needed s ((1 + pid) % s.num_players)
          (s.get_card_ids_player_can_play ((1 + pid) % s.num_players)))
        ∨ i ∈ needed_ids (cover_needed s ((1 + pid) % s.num_players)
          (s.get_card_ids_player_can_discard ((1 + pid) % s.num_players))))))) = [])
    (hneedD : cover_needed s ((1 + pid) % s.num_players)
      (s.get_card_ids_player_can_discard ((1 + pid) % s.num_players)) ≠ [])
    (_hneedP : cover_needed s ((1 + pid) % s.num_players)
      (s.get_card_ids_player_can_play ((1 + pid) % s.num_players)) ≠ []) :
    ∃ best, best ∈ (cover_needed s ((1 + pid) % s.num_players)
        (s.get_card_ids_player_can_discard ((1 + pid) % s.num_players))).map Prod.fst ∧
      s.select_action_ai last pid actions
        = find_hint_action actions ((1 + pid) % s.num_players) best := by
  obtain ⟨best, hbk, hmem⟩ := best_key_mem
    (good_discard_hints s pid ((1 + pid) % s.num_players)
      (cover_needed s ((1 + pid) % s.num_players)
        (s.get_card_ids_player_can_discard ((1 + pid) % s.num_players))))
    (cover_needed s ((1 + pid) % s.num_players)
      (s.get_card_ids_player_can_discard ((1 + pid) % s.num_players)))
    hneedD (good_discard_sub s pid _ _)
  refine ⟨best, hmem, ?_⟩
  have htry : try_hint_for_player s pid actions ((1 + pid) % s.num_players)
      = some (find_hint_action actions ((1 + pid) % s.num_players) best) := by
    unfold try_hint_for_player
    dsimp only
    rw [if_pos hdont, if_pos hneedD, hbk]
  obtain ⟨k, hk⟩ : ∃ k, s.num_players - 1 = k + 1 := ⟨s.num_players - 2, by omega⟩
  unfold GameState.select_action_ai
  dsimp only
  rw [if_neg (not_not_intro h1), if_neg (not_not_intro h2), if_neg h3, hk,
    List.range'_succ, ai_hint_loop_cons, htry]

set_option maxRecDepth 200000 in
/-- C9 witness: the amended priority theorem instantiated at the fresh
5-player game on deck `D`, player 0 acting over its available actions. -/
theorem hanabi_c9_discard_priority_witness :
    ∃ best, best ∈ (cover_needed s0 ((1 + 0) % s0.num_players)
        (s0.get_card_ids_player_can_discard ((1 + 0) % s0.num_players))).map Prod.fst ∧
      s0.select_action_ai none 0 (s0.get_available_actions 0)
        = find_hint_action (s0.get_available_actions 0) ((1 + 0) % s0.num_players) best :=
  hanabi_c9_discard_priority s0 none 0 (s0.get_available_actions 0)
    (by decide) (by decide) (by decide) (by decide) (by decide) (by decide) (by decide)

end Hanabi
